import Mathlib

/-! Verification development for the CycleWorks technician scheduling engine.

The Python sources are modelled with rational-valued coordinates and an
abstract distance function `d` standing in for the haversine metric that the
optimizer imports; the real haversine formula itself is modelled separately
over the reals.  Django querysets are modelled as lists kept in storage
order; Python truthiness tests on nullable floats (`if x:`) are modelled by
`truthyQ`, which is false for both `None` and `0.0`; `x is not None` is
modelled by `Option.isSome`.  `scipy.optimize.linear_sum_assignment` is
modelled as the first permutation of minimal total cost in the enumeration
of all permutations, which realizes its contract (an optimal assignment,
unspecified tie-breaking).
-/

namespace Cycleworks

/-- Technician row, from technicians/models.py. -/
structure Technician where
  id : ℕ
  name : String
  city : String
  current_lat : Option ℚ
  current_lng : Option ℚ
deriving DecidableEq, Repr, Inhabited

/-- AvailabilitySlot row, from technicians/models.py; unique per
(technician, date, slot) by the model's unique_together constraint. -/
structure AvailabilitySlot where
  technician : ℕ
  date : ℕ
  slot : String
  is_booked : Bool
deriving DecidableEq, Repr, Inhabited

/-- CustomerBooking row, from bookings/models.py. -/
structure CustomerBooking where
  id : ℕ
  name : String
  phone : String
  city : String
  address : String
  pincode : String
  lat : Option ℚ
  lng : Option ℚ
  date : ℕ
  slot : String
  assigned_technician : Option ℕ
  status : String
deriving DecidableEq, Repr, Inhabited

/-- AssignmentRun row, from bookings/models.py (meta JSON omitted; no claim
inspects it). -/
structure AssignmentRun where
  city : String
  date : ℕ
  before_total_km : ℚ
  after_total_km : ℚ
  distance_saved_km : ℚ
  groups_optimized : ℕ
deriving DecidableEq, Repr, Inhabited

/-- AssignmentChange row, from bookings/models.py. -/
structure AssignmentChangeRow where
  runIdx : ℕ
  booking_id : ℕ
  slot : String
  customer_name : String
  customer_pincode : String
  old_technician : Option String
  new_technician : String
  old_km : ℚ
  new_km : ℚ
  delta_km : ℚ
  changed : Bool
deriving DecidableEq, Repr, Inhabited

/-- The persisted database state.  Lists are kept in storage order, which is
the order the modelled querysets return rows in. -/
structure State where
  technicians : List Technician
  slots : List AvailabilitySlot
  bookings : List CustomerBooking
  runs : List AssignmentRun
  changeRows : List AssignmentChangeRow
  nextBookingId : ℕ
deriving DecidableEq, Repr, Inhabited

/-- Python truthiness of a nullable float: `None` and `0.0` are falsy. -/
def truthyQ : Option ℚ → Bool
  | none => false
  | some x => if x = 0 then false else true

/-- First technician row with the given primary key (foreign-key lookup). -/
def findTech (s : State) (tid : ℕ) : Option Technician :=
  s.technicians.find? (fun t => t.id == tid)

/-- SLOT_ORDER from bookings/services/optimizer.py. -/
def SLOT_ORDER : List String := ["09_11", "11_13", "13_15", "15_17", "17_19"]

/-- Replace the first list element satisfying `p` (models mutating the single
row returned by `queryset.first()` and saving it). -/
def replaceFirst (p : α → Bool) (f : α → α) : List α → List α
  | [] => []
  | x :: xs => if p x then f x :: xs else x :: replaceFirst p f xs

/-- defaultdict(float) accumulation preserving Python dict insertion order. -/
def addTo : List (String × ℚ) → String → ℚ → List (String × ℚ)
  | [], k, v => [(k, v)]
  | (k', v') :: rest, k, v =>
    if k' == k then (k', v' + v) :: rest else (k', v') :: addTo rest k v

/-- defaultdict(list) accumulation preserving insertion order. -/
def addTrip (m : List (String × List α)) (k : String) (x : α) : List (String × List α) :=
  match m with
  | [] => [(k, [x])]
  | (k', xs) :: rest =>
    if k' == k then (k', xs ++ [x]) :: rest else (k', xs) :: addTrip rest k x

/-- Insertion into a sorted list, placing the new element before the first
strictly greater one; used to model Python's stable ascending sort. -/
def insertLe (le : α → α → Bool) (x : α) : List α → List α
  | [] => [x]
  | y :: ys => if le x y then x :: y :: ys else y :: insertLe le x ys

/-- Stable insertion sort, modelling Python's `list.sort` / `sorted`. -/
def sortLe (le : α → α → Bool) : List α → List α
  | [] => []
  | x :: xs => insertLe le x (sortLe le xs)

/-- Deduplicate technicians by id keeping first occurrences (the
`technician_dict` loop in `_optimize_slot_group`). -/
def dedupeTechs (seen : List ℕ) : List Technician → List Technician
  | [] => []
  | t :: rest =>
    if t.id ∈ seen then dedupeTechs seen rest
    else t :: dedupeTechs (t.id :: seen) rest

/-- Distinct slot codes in order of first appearance (Python dict key order
of `grouped_bookings`). -/
def dedupeStr (seen : List String) : List String → List String
  | [] => []
  | k :: rest =>
    if k ∈ seen then dedupeStr seen rest
    else k :: dedupeStr (k :: seen) rest

/-! ### The assignment solver

`scipy.optimize.linear_sum_assignment` on an n×n cost matrix returns
`row_ind = [0, …, n-1]` together with a column permutation of minimal total
cost.  We model it as the first minimal-cost permutation in the enumeration
`(List.range n).permutations`, seeded with the identity. -/

/-- Total cost of the assignment pairing row `i` with column `q[i]`. -/
def totalCost (cost : ℕ → ℕ → ℚ) (q : List ℕ) : ℚ :=
  ∑ i in Finset.range q.length, cost i (q.getD i 0)

/-- Keep the first candidate assignment of minimal total cost. -/
def pickMinPerm (cost : ℕ → ℕ → ℚ) (best : List ℕ) : List (List ℕ) → List ℕ
  | [] => best
  | q :: rest =>
    pickMinPerm cost (if totalCost cost q < totalCost cost best then q else best) rest

/-- Model of `scipy.optimize.linear_sum_assignment` on an n×n matrix:
an optimal column permutation. -/
def linear_sum_assignment (n : ℕ) (cost : ℕ → ℕ → ℚ) : List ℕ :=
  pickMinPerm cost (List.range n) (List.range n).permutations'

theorem pickMinPerm_eq_best_or_mem (cost : ℕ → ℕ → ℚ) (l : List (List ℕ)) :
    ∀ best, pickMinPerm cost best l = best ∨ pickMinPerm cost best l ∈ l := by
  induction l with
  | nil => intro best; exact Or.inl rfl
  | cons q rest ih =>
    intro best
    simp only [pickMinPerm]
    by_cases h : totalCost cost q < totalCost cost best
    · rw [if_pos h]
      rcases ih q with h1 | h1
      · exact Or.inr (by simp [h1])
      · exact Or.inr (List.mem_cons_of_mem _ h1)
    · rw [if_neg h]
      rcases ih best with h1 | h1
      · exact Or.inl h1
      · exact Or.inr (List.mem_cons_of_mem _ h1)

theorem pickMinPerm_le_best (cost : ℕ → ℕ → ℚ) (l : List (List ℕ)) :
    ∀ best, totalCost cost (pickMinPerm cost best l) ≤ totalCost cost best := by
  induction l with
  | nil => intro best; exact le_refl _
  | cons q rest ih =>
    intro best
    simp only [pickMinPerm]
    by_cases h : totalCost cost q < totalCost cost best
    · rw [if_pos h]; exact le_trans (ih q) (le_of_lt h)
    · rw [if_neg h]; exact ih best

theorem pickMinPerm_le_mem (cost : ℕ → ℕ → ℚ) (l : List (List ℕ)) :
    ∀ best q, q ∈ l → totalCost cost (pickMinPerm cost best l) ≤ totalCost cost q := by
  induction l with
  | nil => intro _ _ h; exact absurd h (List.not_mem_nil _)
  | cons p rest ih =>
    intro best q hq
    simp only [pickMinPerm]
    rcases List.mem_cons.mp hq with rfl | hq
    · by_cases h : totalCost cost q < totalCost cost best
      · rw [if_pos h]; exact pickMinPerm_le_best cost rest q
      · rw [if_neg h]
        exact le_trans (pickMinPerm_le_best cost rest best) (le_of_not_lt h)
    · by_cases h : totalCost cost p < totalCost cost best
      · rw [if_pos h]; exact ih p q hq
      · rw [if_neg h]; exact ih best q hq

theorem lsa_perm (n : ℕ) (cost : ℕ → ℕ → ℚ) :
    List.Perm (linear_sum_assignment n cost) (List.range n) := by
  rcases pickMinPerm_eq_best_or_mem cost (List.range n).permutations' (List.range n) with h | h
  · rw [linear_sum_assignment, h]
  · exact List.mem_permutations'.mp h

theorem lsa_length (n : ℕ) (cost : ℕ → ℕ → ℚ) :
    (linear_sum_assignment n cost).length = n := by
  have := (lsa_perm n cost).length_eq
  simpa using this

theorem lsa_min (n : ℕ) (cost : ℕ → ℕ → ℚ) (q : List ℕ)
    (hq : List.Perm q (List.range n)) :
    totalCost cost (linear_sum_assignment n cost) ≤ totalCost cost q :=
  pickMinPerm_le_mem cost (List.range n).permutations' (List.range n) q
    (List.mem_permutations'.mpr hq)

/-! ### The Slot Group Optimizer (`_optimize_slot_group`) -/

/-- Result dict of `_optimize_slot_group`. -/
structure OptResult where
  slot : String
  old_distance : ℚ
  new_distance : ℚ
  improvement_km : ℚ
  improved : Bool
deriving DecidableEq, Repr, Inhabited

/-- Technicians currently holding a booked slot in the (city, date, slot)
group: the `booked_slots` queryset joined to `Technician`, deduplicated by id
keeping first occurrences. -/
def groupTechnicians (s : State) (city : String) (dt : ℕ) (slot : String) :
    List Technician :=
  dedupeTechs []
    (s.slots.filterMap (fun sl =>
      if sl.date == dt && sl.slot == slot && sl.is_booked then
        (findTech s sl.technician).bind
          (fun t => if t.city == city then some t else none)
      else none))

/-- Booking has both coordinates resolved (`lat is not None and lng is not
None` in the `customer_coords` loop). -/
def bothCoords (bk : CustomerBooking) : Bool :=
  bk.lat.isSome && bk.lng.isSome

/-- Cost-matrix cell (i, j): the `np.full` 1e6 sentinel, overwritten with the
technician-to-customer distance when row and column are real and the
technician has a current position. -/
def cellCost (d : ℚ → ℚ → ℚ → ℚ → ℚ) (techs : List Technician)
    (coords : List CustomerBooking) (i j : ℕ) : ℚ :=
  match techs.get? i, coords.get? j with
  | some t, some bk =>
    match t.current_lat, t.current_lng with
    | some tl, some tg => d tl tg (bk.lat.getD 0) (bk.lng.getD 0)
    | _, _ => 1000000
  | _, _ => 1000000

/-- The `old_total_distance` loop: distance of each booking to its currently
assigned technician, skipped when the technician is missing or either
latitude is falsy. -/
def oldTotalDistance (d : ℚ → ℚ → ℚ → ℚ → ℚ) (s : State)
    (bs : List CustomerBooking) : ℚ :=
  bs.foldl (fun acc bk =>
    match bk.assigned_technician.bind (findTech s) with
    | some t =>
      if truthyQ t.current_lat && truthyQ bk.lat then
        acc + d (bk.lat.getD 0) (bk.lng.getD 0)
            (t.current_lat.getD 0) (t.current_lng.getD 0)
      else acc
    | none => acc) 0

/-- The materialized `(booking, technician, distance)` triples from the
`zip(row_indices, col_indices)` loop: only real rows and columns with a
positioned technician are kept. -/
def optimizedTriples (d : ℚ → ℚ → ℚ → ℚ → ℚ) (techs : List Technician)
    (coords : List CustomerBooking) (assign : List ℕ) (n : ℕ) :
    List (CustomerBooking × Technician × ℚ) :=
  (List.range n).filterMap (fun i =>
    let j := assign.getD i 0
    if i < techs.length then
      if j < coords.length then
        let t := techs.getD i default
        let bk := coords.getD j default
        match t.current_lat, t.current_lng with
        | some tl, some tg => some (bk, t, d tl tg (bk.lat.getD 0) (bk.lng.getD 0))
        | _, _ => none
      else none
    else none)

/-- `_optimize_slot_group`, bookings/services/optimizer.py lines 117-210. -/
def optimize_slot_group (d : ℚ → ℚ → ℚ → ℚ → ℚ) (s : State) (city : String)
    (slot : String) (bs : List CustomerBooking) (dt : ℕ) :
    Option OptResult × List (CustomerBooking × Technician × ℚ) :=
  let technicians := groupTechnicians s city dt slot
  let coords := bs.filter bothCoords
  if coords.isEmpty || technicians.isEmpty then (none, [])
  else
    let old_total := oldTotalDistance d s bs
    let n := max technicians.length coords.length
    let assign := linear_sum_assignment n (cellCost d technicians coords)
    let optimized := optimizedTriples d technicians coords assign n
    let new_total := (optimized.map (fun x => x.2.2)).sum
    (some { slot := slot, old_distance := old_total, new_distance := new_total,
            improvement_km := old_total - new_total,
            improved := if (1 : ℚ)/100 ≤ old_total - new_total then true else false },
     optimized)

/-! ### Current-state metrics (`_build_current_state`) -/

/-- Assignment summary record used in the before/after report sides. -/
structure AssignRecord where
  booking_id : ℕ
  customer_name : String
  slot : String
  tech_name : String
  distance_km : ℚ
deriving DecidableEq, Repr, Inhabited

/-- Accumulator/result of `_build_current_state`. -/
structure CurrentState where
  total_km : ℚ
  per_slot : List (String × ℚ)
  per_tech : List (String × ℚ)
  assignments : List AssignRecord
deriving DecidableEq, Repr, Inhabited

/-- The booking queryset shared by `_build_current_state` and
`preview_optimization`: assigned bookings for the city/date with a
technician and resolved coordinates. -/
def previewBookings (s : State) (city : String) (dt : ℕ) :
    List CustomerBooking :=
  s.bookings.filter (fun b =>
    b.date == dt && b.city == city && b.status == "assigned" &&
    b.assigned_technician.isSome && b.lat.isSome && b.lng.isSome)

/-- `_build_current_state`, optimizer.py lines 26-71. -/
def build_current_state (d : ℚ → ℚ → ℚ → ℚ → ℚ) (s : State) (city : String)
    (dt : ℕ) : CurrentState :=
  (previewBookings s city dt).foldl (fun acc bk =>
    match bk.assigned_technician.bind (findTech s) with
    | some t =>
      if truthyQ t.current_lat && truthyQ bk.lat then
        let dist := d (bk.lat.getD 0) (bk.lng.getD 0)
            (t.current_lat.getD 0) (t.current_lng.getD 0)
        { total_km := acc.total_km + dist,
          per_slot := addTo acc.per_slot bk.slot dist,
          per_tech := addTo acc.per_tech t.name dist,
          assignments := acc.assignments ++
            [{ booking_id := bk.id, customer_name := bk.name, slot := bk.slot,
               tech_name := t.name, distance_km := dist }] }
      else acc
    | none => acc)
    { total_km := 0, per_slot := [], per_tech := [], assignments := [] }

/-- Model of `Technician.objects.filter(name=nm).first()`.  The `Technician`
model declares no `Meta.ordering`, so Django's `first()` applies
`order_by('pk')` before taking the first row: the result is the
smallest-primary-key technician carrying the given name. -/
def findTechByName (s : State) (nm : String) : Option Technician :=
  (sortLe (fun a b => a.id ≤ b.id)
    (s.technicians.filter (fun t => t.name == nm))).head?

/-! ### The Route Accountant (`_calculate_route_distance`) -/

/-- Greedy chronological walk from the technician's current position. -/
def routeWalk (d : ℚ → ℚ → ℚ → ℚ → ℚ) :
    ℚ → ℚ → ℚ → List CustomerBooking → ℚ
  | _, _, acc, [] => acc
  | cl, cg, acc, bk :: rest =>
    routeWalk d (bk.lat.getD 0) (bk.lng.getD 0)
      (acc + d cl cg (bk.lat.getD 0) (bk.lng.getD 0)) rest

/-- Bookings of the named technician in SLOT_ORDER (the `tech_bookings`
collection loop; `booking.lat` truthiness is checked there and again before
each leg, the two tests coincide). -/
def techBookingsInOrder (tech_name : String)
    (abs : List (String × List (CustomerBooking × Technician × ℚ))) :
    List CustomerBooking :=
  SLOT_ORDER.flatMap (fun sl =>
    match abs.find? (fun kv => kv.1 == sl) with
    | none => []
    | some kv =>
      (kv.2.filter (fun trip => trip.2.1.name == tech_name && truthyQ trip.1.lat)).map
        (fun trip => trip.1))

/-- `_calculate_route_distance`, optimizer.py lines 74-114. -/
def calculate_route_distance (d : ℚ → ℚ → ℚ → ℚ → ℚ) (s : State)
    (tech_name : String)
    (abs : List (String × List (CustomerBooking × Technician × ℚ))) : ℚ :=
  match findTechByName s tech_name with
  | none => 0
  | some t =>
    if truthyQ t.current_lat then
      routeWalk d (t.current_lat.getD 0) (t.current_lng.getD 0) 0
        (techBookingsInOrder tech_name abs)
    else 0

/-! ### The Preview orchestrator (`preview_optimization`) -/

/-- Change record built in the preview loop. -/
structure ChangeRecord where
  booking_id : ℕ
  slot : String
  customer_name : String
  old_technician : Option String
  new_technician : String
  old_km : ℚ
  new_km : ℚ
  delta_km : ℚ
  abs_delta_km : ℚ
  changed : Bool
deriving DecidableEq, Repr, Inhabited

/-- One side (before or after) of the preview report. -/
structure SideState where
  total_km : ℚ
  per_slot : List (String × ℚ)
  per_tech : List (String × ℚ)
  per_tech_routes : List (String × ℚ)
  assignments : List AssignRecord
deriving DecidableEq, Repr, Inhabited

/-- The preview report. -/
structure Report where
  before : SideState
  after : SideState
  changes : List ChangeRecord
  groups_optimized : ℕ
  distance_saved_km : ℚ
deriving DecidableEq, Repr, Inhabited

/-- Accumulator of the per-group preview loop. -/
structure PrevAcc where
  after_total : ℚ
  after_per_slot : List (String × ℚ)
  after_per_tech : List (String × ℚ)
  after_assignments : List AssignRecord
  changes : List ChangeRecord
  groups_optimized : ℕ
  optimized_by_slot : List (String × List (CustomerBooking × Technician × ℚ))
deriving DecidableEq, Repr, Inhabited

/-- The change record built for one optimized `(booking, tech, dist)` triple.
Object inequality `old_tech != tech` on Django models compares primary keys,
modelled by comparing technician ids. -/
def mkChange (d : ℚ → ℚ → ℚ → ℚ → ℚ) (s : State) (k : String)
    (trip : CustomerBooking × Technician × ℚ) : ChangeRecord :=
  let bk := trip.1
  let t := trip.2.1
  let dist := trip.2.2
  let old_tech := bk.assigned_technician.bind (findTech s)
  let old_km : ℚ :=
    match old_tech with
    | some ot =>
      if truthyQ ot.current_lat && truthyQ bk.lat then
        d (bk.lat.getD 0) (bk.lng.getD 0)
          (ot.current_lat.getD 0) (ot.current_lng.getD 0)
      else 0
    | none => 0
  let delta := old_km - dist
  { booking_id := bk.id, slot := k, customer_name := bk.name,
    old_technician := old_tech.map (fun ot => ot.name),
    new_technician := t.name, old_km := old_km, new_km := dist,
    delta_km := delta, abs_delta_km := if delta < 0 then -delta else delta,
    changed := decide (bk.assigned_technician ≠ some t.id) }

/-- The body of the `for booking, tech, dist in optimized` loop. -/
def prevStep (d : ℚ → ℚ → ℚ → ℚ → ℚ) (s : State) (k : String) (acc : PrevAcc)
    (trip : CustomerBooking × Technician × ℚ) : PrevAcc :=
  let bk := trip.1
  let t := trip.2.1
  let dist := trip.2.2
  { after_total := acc.after_total + dist,
    after_per_slot := addTo acc.after_per_slot k dist,
    after_per_tech := addTo acc.after_per_tech t.name dist,
    after_assignments := acc.after_assignments ++
      [{ booking_id := bk.id, customer_name := bk.name, slot := k,
         tech_name := t.name, distance_km := dist }],
    changes := acc.changes ++ [mkChange d s k trip],
    groups_optimized := acc.groups_optimized,
    optimized_by_slot := addTrip acc.optimized_by_slot k trip }

/-- One iteration of the `for slot, slot_bookings in sorted(...)` loop. -/
def processGroup (d : ℚ → ℚ → ℚ → ℚ → ℚ) (s : State) (city : String) (dt : ℕ)
    (acc : PrevAcc) (k : String) : PrevAcc :=
  let gbs := (previewBookings s city dt).filter (fun b => b.slot == k)
  let res := optimize_slot_group d s city k gbs dt
  let acc1 :=
    { acc with groups_optimized := acc.groups_optimized +
        (match res.1 with
         | some r => if r.improved then 1 else 0
         | none => 0) }
  res.2.foldl (prevStep d s k) acc1

/-- The sorted distinct slot keys of the grouped preview bookings. -/
def sortedSlotKeys (s : State) (city : String) (dt : ℕ) : List String :=
  sortLe (fun a b => a ≤ b)
    (dedupeStr [] ((previewBookings s city dt).map (fun b => b.slot)))

/-- The `(booking, tech, dist)` pairs grouped under each slot for the before
state (distance component unused, recorded as 0.0 as in the source). -/
def beforeAssignmentsBySlot (s : State) (city : String) (dt : ℕ) :
    List (String × List (CustomerBooking × Technician × ℚ)) :=
  (previewBookings s city dt).foldl (fun m bk =>
    match bk.assigned_technician.bind (findTech s) with
    | some t => if truthyQ bk.lat then addTrip m bk.slot (bk, t, 0) else m
    | none => m) []

/-- `preview_optimization`, optimizer.py lines 213-335. -/
def preview_optimization (d : ℚ → ℚ → ℚ → ℚ → ℚ) (s : State) (city : String)
    (dt : ℕ) : Report :=
  let before := build_current_state d s city dt
  let acc0 : PrevAcc :=
    { after_total := 0, after_per_slot := [], after_per_tech := [],
      after_assignments := [], changes := [], groups_optimized := 0,
      optimized_by_slot := [] }
  let acc := (sortedSlotKeys s city dt).foldl (processGroup d s city dt) acc0
  let after_routes := acc.after_per_tech.map (fun kv =>
    (kv.1, calculate_route_distance d s kv.1 acc.optimized_by_slot))
  let before_routes := before.per_tech.map (fun kv =>
    (kv.1, calculate_route_distance d s kv.1 (beforeAssignmentsBySlot s city dt)))
  { before :=
      { total_km := before.total_km, per_slot := before.per_slot,
        per_tech := before.per_tech, per_tech_routes := before_routes,
        assignments := before.assignments },
    after :=
      { total_km := acc.after_total, per_slot := acc.after_per_slot,
        per_tech := acc.after_per_tech, per_tech_routes := after_routes,
        assignments := acc.after_assignments },
    changes := acc.changes,
    groups_optimized := acc.groups_optimized,
    distance_saved_km := before.total_km - acc.after_total }

/-- The read-only preview endpoint viewed as a state transformer: it runs
`preview_optimization` and performs no writes (the source path contains no
`save()` or `create()` call). -/
def previewEndpoint (d : ℚ → ℚ → ℚ → ℚ → ℚ) (s : State) (city : String)
    (dt : ℕ) : Report × State :=
  (preview_optimization d s city dt, s)

/-! ### The Apply orchestrator (`apply_optimization`)

The body of `with transaction.atomic():` is modelled in the `Except Unit`
monad: each primitive row write (`save()` / `create()`) increments a write
counter and a fault environment `failAt` may fail any single write, standing
for a database error at that point.  When any write fails, the atomic block
rolls back: the caller observes the original state and no run or change
row. -/

/-- One primitive write inside the transaction; `failAt` injects a fault at
the given write index. -/
def doWrite (failAt : Option ℕ) (k : ℕ) : Except Unit ℕ :=
  if failAt = some k then Except.error () else Except.ok (k + 1)

theorem noneNeSomeNat (k : ℕ) : ((none : Option ℕ) = some k) = False := by
  simp

theorem strT1T2 : (("T1" : String) = "T2") = False := by simp
theorem strT2T1 : (("T2" : String) = "T1") = False := by simp
theorem strT1T2B : (("T1" : String) == "T2") = false := by simp
theorem strT2T1B : (("T2" : String) == "T1") = false := by simp
theorem strNearFarB : (("Near" : String) == "Far") = false := by simp
theorem strNearFar : (("Near" : String) = "Far") = False := by simp
theorem strXAB : (("X" : String) == "A") = false := by simp
theorem strXA : (("X" : String) = "A") = False := by simp
theorem strAXB : (("A" : String) == "X") = false := by simp
theorem strAX : (("A" : String) = "X") = False := by simp

/-- The `bookings_dict` lookup: assigned bookings of the city/date by id. -/
def findBookingApply (s : State) (city : String) (dt : ℕ) (bid : ℕ) :
    Option CustomerBooking :=
  (s.bookings.filter (fun b =>
    b.date == dt && b.city == city && b.status == "assigned")).find?
    (fun b => b.id == bid)

/-- Free the old technician's booked slot for the booking's time window
(the first such row, as `queryset.first()` returns). -/
def unbookOldSlot (s : State) (oldId : ℕ) (dt : ℕ) (slot : String) : State :=
  let newSlots := replaceFirst
    (fun sl => sl.technician == oldId && sl.date == dt && sl.slot == slot &&
      sl.is_booked)
    (fun sl => { sl with is_booked := false }) s.slots
  { s with slots := newSlots }

/-- Book the new technician's free slot for the booking's time window. -/
def bookNewSlot (s : State) (newId : ℕ) (dt : ℕ) (slot : String) : State :=
  let newSlots := replaceFirst
    (fun sl => sl.technician == newId && sl.date == dt && sl.slot == slot &&
      !sl.is_booked)
    (fun sl => { sl with is_booked := true }) s.slots
  { s with slots := newSlots }

/-- The slot-free half of a reassignment: free the old technician's booked
slot when one exists (a write), otherwise no write happens. -/
def freeOldHalf (failAt : Option ℕ) (dt : ℕ) (bkSlot : String)
    (oldAssigned : Option ℕ) (s1 : State) (k1 : ℕ) : Except Unit (State × ℕ) :=
  match oldAssigned with
  | none => Except.ok (s1, k1)
  | some oldId =>
    if (s1.slots.find? (fun sl => sl.technician == oldId &&
        sl.date == dt && sl.slot == bkSlot && sl.is_booked)).isSome then
      match doWrite failAt k1 with
      | Except.error e => Except.error e
      | Except.ok k2 => Except.ok (unbookOldSlot s1 oldId dt bkSlot, k2)
    else Except.ok (s1, k1)

/-- The slot-book half of a reassignment: book the new technician's free
slot when one exists (a write), otherwise no write happens. -/
def bookNewHalf (failAt : Option ℕ) (dt : ℕ) (bkSlot : String) (newId : ℕ)
    (s2 : State) (k2 : ℕ) : Except Unit (State × ℕ) :=
  if (s2.slots.find? (fun sl => sl.technician == newId && sl.date == dt &&
      sl.slot == bkSlot && !sl.is_booked)).isSome then
    match doWrite failAt k2 with
    | Except.error e => Except.error e
    | Except.ok k3 => Except.ok (bookNewSlot s2 newId dt bkSlot, k3)
  else Except.ok (s2, k2)

/-- One iteration of the `for change in preview['changes']` mutation loop.
The new technician is resolved by `Technician.objects.filter(name=...)`
`.first()`: with no model ordering declared, the queryset is ordered by
primary key, so the smallest-id technician whose name equals the change's
name snapshot is selected. -/
def applyChangeStep (failAt : Option ℕ) (city : String) (dt : ℕ)
    (acc : State × ℕ) (c : ChangeRecord) : Except Unit (State × ℕ) :=
  let s := acc.1
  let k := acc.2
  match findBookingApply s city dt c.booking_id with
  | none => Except.ok (s, k)
  | some bk =>
    match findTechByName s c.new_technician with
    | none => Except.ok (s, k)
    | some nt =>
      if bk.assigned_technician == some nt.id then Except.ok (s, k)
      else
        match doWrite failAt k with
        | Except.error e => Except.error e
        | Except.ok k1 =>
          let newBookings := replaceFirst (fun b => b.id == bk.id)
            (fun b => { b with assigned_technician := some nt.id }) s.bookings
          let s1 : State := { s with bookings := newBookings }
          match freeOldHalf failAt dt bk.slot bk.assigned_technician s1 k1 with
          | Except.error e => Except.error e
          | Except.ok acc2 => bookNewHalf failAt dt bk.slot nt.id acc2.1 acc2.2

/-- The mutation loop over the preview's change list. -/
def applyLoop (failAt : Option ℕ) (city : String) (dt : ℕ) :
    State × ℕ → List ChangeRecord → Except Unit (State × ℕ)
  | acc, [] => Except.ok acc
  | acc, c :: rest =>
    match applyChangeStep failAt city dt acc c with
    | Except.error e => Except.error e
    | Except.ok acc2 => applyLoop failAt city dt acc2 rest

/-- The `AssignmentChange.objects.create` loop. -/
def createChangeRows (failAt : Option ℕ) (city : String) (dt : ℕ)
    (runIdx : ℕ) : State × ℕ → List ChangeRecord → Except Unit (State × ℕ)
  | acc, [] => Except.ok acc
  | acc, c :: rest =>
    match findBookingApply acc.1 city dt c.booking_id with
    | none => createChangeRows failAt city dt runIdx acc rest
    | some bk =>
      match doWrite failAt acc.2 with
      | Except.error e => Except.error e
      | Except.ok k1 =>
        createChangeRows failAt city dt runIdx
          ({ acc.1 with changeRows := acc.1.changeRows ++
            [{ runIdx := runIdx, booking_id := c.booking_id, slot := c.slot,
               customer_name := c.customer_name, customer_pincode := bk.pincode,
               old_technician := c.old_technician,
               new_technician := c.new_technician, old_km := c.old_km,
               new_km := c.new_km, delta_km := c.delta_km,
               changed := c.changed }] }, k1) rest

/-- `apply_optimization` under the fault environment `failAt`: re-runs
preview, then performs the mutation loop, the `AssignmentRun` creation and
the `AssignmentChange` creations inside one atomic transaction.  On any
write fault the transaction rolls back and the caller observes the original
state and no run. -/
def applyTxFinish (s : State) (run : AssignmentRun) :
    Except Unit (State × ℕ) → State × Option AssignmentRun
  | Except.error _ => (s, none)
  | Except.ok finalRes => (finalRes.1, some run)

def applyTxRest (failAt : Option ℕ) (city : String) (dt : ℕ) (pv : Report)
    (s : State) (loopRes : State × ℕ) : State × Option AssignmentRun :=
  match doWrite failAt loopRes.2 with
  | Except.error _ => (s, none)
  | Except.ok k1 =>
    let run : AssignmentRun :=
      { city := city, date := dt, before_total_km := pv.before.total_km,
        after_total_km := pv.after.total_km,
        distance_saved_km := pv.distance_saved_km,
        groups_optimized := pv.groups_optimized }
    let runIdx := loopRes.1.runs.length
    let s2 : State := { loopRes.1 with runs := loopRes.1.runs ++ [run] }
    applyTxFinish s run (createChangeRows failAt city dt runIdx (s2, k1) pv.changes)

def applyTx (d : ℚ → ℚ → ℚ → ℚ → ℚ) (failAt : Option ℕ) (s : State)
    (city : String) (dt : ℕ) : State × Option AssignmentRun :=
  let pv := preview_optimization d s city dt
  match applyLoop failAt city dt (s, 0) pv.changes with
  | Except.error _ => (s, none)
  | Except.ok loopRes => applyTxRest failAt city dt pv s loopRes

/-- `apply_optimization`, optimizer.py lines 338-432, in the fault-free
environment. -/
def apply_optimization (d : ℚ → ℚ → ℚ → ℚ → ℚ) (s : State) (city : String)
    (dt : ℕ) : State × Option AssignmentRun :=
  applyTx d none s city dt

theorem applyTxFinish_none (s : State) (run : AssignmentRun)
    (e : Except Unit (State × ℕ)) (h : (applyTxFinish s run e).2 = none) :
    (applyTxFinish s run e).1 = s := by
  cases e with
  | error u => rfl
  | ok fr => simp [applyTxFinish] at h

theorem applyTxRest_none (failAt : Option ℕ) (city : String) (dt : ℕ)
    (pv : Report) (s : State) (loopRes : State × ℕ)
    (h : (applyTxRest failAt city dt pv s loopRes).2 = none) :
    (applyTxRest failAt city dt pv s loopRes).1 = s := by
  unfold applyTxRest at h ⊢
  cases hW : doWrite failAt loopRes.2 with
  | error e => simp [hW]
  | ok k1 =>
    rw [hW] at h
    dsimp only at h ⊢
    exact applyTxFinish_none _ _ _ h

/-- C4: Apply's commit is all-or-nothing.  For every apply invocation in
which any write fails (any injected fault point `failAt`, observed as the
call returning no run), the caller sees the original state: every slot and
booking mutation is rolled back and the state's AssignmentRun and
AssignmentChange tables are unchanged, so no run row and no change row
exists for the failed call. -/
theorem c4_apply_all_or_nothing (d : ℚ → ℚ → ℚ → ℚ → ℚ) (failAt : Option ℕ)
    (s : State) (city : String) (dt : ℕ)
    (h : (applyTx d failAt s city dt).2 = none) :
    (applyTx d failAt s city dt).1 = s ∧
    (applyTx d failAt s city dt).1.runs = s.runs ∧
    (applyTx d failAt s city dt).1.changeRows = s.changeRows := by
  have hmain : (applyTx d failAt s city dt).1 = s := by
    unfold applyTx at h ⊢
    dsimp only at h ⊢
    cases hE : applyLoop failAt city dt (s, 0)
        (preview_optimization d s city dt).changes with
    | error e => simp [hE]
    | ok loopRes =>
      rw [hE] at h
      dsimp only at h ⊢
      exact applyTxRest_none failAt city dt _ s loopRes h
  exact ⟨hmain, by rw [hmain], by rw [hmain]⟩

/-! ### The Immediate Dispatcher (`BookView.post`, api/views.py)

Modelled from the point where the customer's coordinates have been resolved
from the pincode; the candidate query, distance ranking, selection and the
transactional write block are embedded.  A technician without a current
position gets distance `float('inf')`, modelled as `⊤ : WithTop ℚ`. -/

/-- Dispatcher outcome. -/
inductive BookResult where
  | success (techName : String)
  | notFound
deriving DecidableEq, Repr

/-- The unbooked candidate slots with their technicians (the
`available_slots` queryset joined to `Technician`). -/
def availableSlotPairs (s : State) (city : String) (dt : ℕ) (slot : String) :
    List (AvailabilitySlot × Technician) :=
  s.slots.filterMap (fun sl =>
    if sl.date == dt && sl.slot == slot && !sl.is_booked then
      (findTech s sl.technician).bind
        (fun t => if t.city == city then some (sl, t) else none)
    else none)

/-- Distance from the customer to a candidate technician's current position;
`none` models `float('inf')` for a technician with no position. -/
def techDistance (d : ℚ → ℚ → ℚ → ℚ → ℚ) (clat clng : ℚ) (t : Technician) :
    Option ℚ :=
  match t.current_lat, t.current_lng with
  | some a, some b => some (d clat clng a b)
  | _, _ => none

/-- Comparison of distances where `none` stands for `float('inf')`. -/
def distLeB : Option ℚ → Option ℚ → Bool
  | _, none => true
  | none, some _ => false
  | some a, some b => if a ≤ b then true else false

/-- Strict comparison of distances where `none` stands for `float('inf')`. -/
def distLtB : Option ℚ → Option ℚ → Bool
  | none, _ => false
  | some _, none => true
  | some a, some b => if a < b then true else false

/-- The `technician_distances` list of `(slot, technician, distance)`. -/
def candidateList (d : ℚ → ℚ → ℚ → ℚ → ℚ) (s : State) (city : String)
    (dt : ℕ) (slot : String) (clat clng : ℚ) :
    List (AvailabilitySlot × Technician × Option ℚ) :=
  (availableSlotPairs s city dt slot).map
    (fun p => (p.1, p.2, techDistance d clat clng p.2))

/-- The distance key of a candidate. -/
def candKey (c : AvailabilitySlot × Technician × Option ℚ) : Option ℚ :=
  c.2.2

/-- `BookView.post` from the candidate query onward: rank candidates by
distance with Python's stable sort, select the first, then atomically book
the slot, create the booking and move the technician to the customer. -/
def create_booking (d : ℚ → ℚ → ℚ → ℚ → ℚ) (s : State)
    (nm ph city addr pin : String) (clat clng : ℚ) (dt : ℕ) (slot : String) :
    BookResult × State :=
  let cands := candidateList d s city dt slot clat clng
  match sortLe (fun a b => distLeB (candKey a) (candKey b)) cands with
  | [] => (BookResult.notFound, s)
  | sel :: _ =>
    let selSlot := sel.1
    let selTech := sel.2.1
    let s1 : State :=
      { s with
        slots := replaceFirst
          (fun sl => sl.technician == selSlot.technician &&
            sl.date == selSlot.date && sl.slot == selSlot.slot)
          (fun sl => { sl with is_booked := true }) s.slots,
        bookings :=
          { id := s.nextBookingId, name := nm, phone := ph, city := city,
            address := addr, pincode := pin, lat := some clat,
            lng := some clng, date := dt, slot := slot,
            assigned_technician := some selTech.id,
            status := "assigned" } :: s.bookings,
        technicians := replaceFirst (fun t => t.id == selTech.id)
          (fun t => { t with current_lat := some clat,
                             current_lng := some clng }) s.technicians,
        nextBookingId := s.nextBookingId + 1 }
    (BookResult.success selTech.name, s1)

/-! ### The Distance Metric (`haversine_distance`, bookings/utils/coords.py)

The formula is modelled over the reals; `math.atan2`, `math.radians`,
`math.sin`, `math.cos` and `math.sqrt` are the corresponding real
functions. -/

/-- Real model of `math.atan2 y x`. -/
noncomputable def atan2 (y x : ℝ) : ℝ :=
  if 0 < x then Real.arctan (y / x)
  else if x < 0 then
    (if 0 ≤ y then Real.arctan (y / x) + Real.pi
     else Real.arctan (y / x) - Real.pi)
  else
    (if 0 < y then Real.pi / 2 else if y < 0 then -(Real.pi / 2) else 0)

/-- Real model of `math.radians`. -/
noncomputable def radians (x : ℝ) : ℝ := x * Real.pi / 180

/-- The haversine quantity `a` of the source. -/
noncomputable def havA (lat1 lon1 lat2 lon2 : ℝ) : ℝ :=
  Real.sin ((radians lat2 - radians lat1) / 2) ^ 2 +
    Real.cos (radians lat1) * Real.cos (radians lat2) *
      Real.sin ((radians lon2 - radians lon1) / 2) ^ 2

/-- `haversine_distance`, bookings/utils/coords.py lines 27-55. -/
noncomputable def haversine_distance (lat1 lon1 lat2 lon2 : ℝ) : ℝ :=
  let a := havA lat1 lon1 lat2 lon2
  let c := 2 * atan2 (Real.sqrt a) (Real.sqrt (1 - a))
  6371 * c

theorem atan2_zero_one : atan2 0 1 = 0 := by
  simp [atan2, Real.arctan_zero]

theorem atan2_nonneg {y x : ℝ} (hy : 0 ≤ y) (hx : 0 ≤ x) : 0 ≤ atan2 y x := by
  unfold atan2
  rcases lt_or_eq_of_le hx with hx1 | hx1
  · rw [if_pos hx1]
    rw [← Real.arctan_zero]
    exact Real.arctan_strictMono.monotone (div_nonneg hy (le_of_lt hx1))
  · rw [if_neg (by rw [← hx1]; exact lt_irrefl 0), if_neg (by rw [← hx1]; exact lt_irrefl 0)]
    rcases lt_or_eq_of_le hy with hy1 | hy1
    · rw [if_pos hy1]
      positivity
    · rw [if_neg (by rw [← hy1]; exact lt_irrefl 0),
        if_neg (by rw [← hy1]; exact lt_irrefl 0)]

theorem havA_self (lat lon : ℝ) : havA lat lon lat lon = 0 := by
  simp [havA]

theorem sin_half_sub_sq (a b : ℝ) :
    Real.sin ((a - b) / 2) ^ 2 = Real.sin ((b - a) / 2) ^ 2 := by
  have h : (a - b) / 2 = -((b - a) / 2) := by ring
  rw [h, Real.sin_neg, neg_sq]

theorem havA_symm (lat1 lon1 lat2 lon2 : ℝ) :
    havA lat1 lon1 lat2 lon2 = havA lat2 lon2 lat1 lon1 := by
  unfold havA
  rw [sin_half_sub_sq (radians lat2) (radians lat1),
    sin_half_sub_sq (radians lon2) (radians lon1),
    mul_comm (Real.cos (radians lat1)) (Real.cos (radians lat2))]

/-- C9: for every point p, `distance(p, p) = 0`; for all points a and b,
`distance(a, b) = distance(b, a)`; and the distance is never negative (the
function is total over the reals, so it never fails). -/
theorem c9_distance_metric (lat1 lon1 lat2 lon2 : ℝ) :
    haversine_distance lat1 lon1 lat1 lon1 = 0 ∧
    haversine_distance lat1 lon1 lat2 lon2 =
      haversine_distance lat2 lon2 lat1 lon1 ∧
    0 ≤ haversine_distance lat1 lon1 lat2 lon2 := by
  refine ⟨?_, ?_, ?_⟩
  · show 6371 * (2 * atan2 (Real.sqrt (havA lat1 lon1 lat1 lon1))
      (Real.sqrt (1 - havA lat1 lon1 lat1 lon1))) = 0
    rw [havA_self]
    simp [atan2_zero_one]
  · show 6371 * (2 * atan2 (Real.sqrt (havA lat1 lon1 lat2 lon2))
      (Real.sqrt (1 - havA lat1 lon1 lat2 lon2))) =
      6371 * (2 * atan2 (Real.sqrt (havA lat2 lon2 lat1 lon1))
      (Real.sqrt (1 - havA lat2 lon2 lat1 lon1)))
    rw [havA_symm]
  · show 0 ≤ 6371 * (2 * atan2 (Real.sqrt (havA lat1 lon1 lat2 lon2))
      (Real.sqrt (1 - havA lat1 lon1 lat2 lon2)))
    have h := atan2_nonneg (Real.sqrt_nonneg (havA lat1 lon1 lat2 lon2))
      (Real.sqrt_nonneg (1 - havA lat1 lon1 lat2 lon2))
    positivity

/-! ### Concrete scenario material

`sqDist` is a concrete stand-in metric (squared Euclidean distance in
coordinate space) used to instantiate the abstract distance parameter on
concrete states; it is symmetric and nonnegative and ranks the scenario
configurations exactly as the haversine metric does. -/

/-- Concrete symmetric nonnegative stand-in metric. -/
def sqDist (a b c e : ℚ) : ℚ := (a - c) ^ 2 + (b - e) ^ 2

/-- A technician with a booked slot who is far from the only booking, while
the booking's currently assigned technician holds no booked slot in the
group (so the identity matching is not available to the optimizer). -/
def c1S : State :=
  { technicians :=
      [{ id := 1, name := "Near", city := "C", current_lat := some 10,
         current_lng := some 0 },
       { id := 2, name := "Far", city := "C", current_lat := some 50,
         current_lng := some 0 }],
    slots := [{ technician := 2, date := 0, slot := "09_11", is_booked := true }],
    bookings :=
      [{ id := 1, name := "B", phone := "p", city := "C", address := "a",
         pincode := "000001", lat := some 11, lng := some 0, date := 0,
         slot := "09_11", assigned_technician := some 1,
         status := "assigned" }],
    runs := [], changeRows := [], nextBookingId := 2 }

/-- The optimizer result on `c1S`. -/
def c1Res : OptResult :=
  { slot := "09_11", old_distance := 1, new_distance := 1521,
    improvement_km := -1520, improved := false }

/-- C1: counterexample.  On state `c1S` the only booking is currently
assigned to the nearby technician (old total 1), but that technician holds
no booked slot in the group, so the optimizer can only match the faraway
technician (new total 1521): the returned matching's total strictly exceeds
the old total, refuting `after_total_km(group) ≤ before_total_km(group)` as
an unconditional statement. -/
theorem c1_counterexample :
    (optimize_slot_group sqDist c1S "C" "09_11" c1S.bookings 0).1 =
      some c1Res ∧ c1Res.old_distance < c1Res.new_distance := by
  constructor
  · norm_num [optimize_slot_group, groupTechnicians, dedupeTechs, findTech,
      bothCoords, oldTotalDistance, cellCost, linear_sum_assignment,
      pickMinPerm, totalCost, optimizedTriples, truthyQ, sqDist,
      List.permutations', List.permutations'Aux, List.range_succ,
      Finset.sum_range_succ, c1S, c1Res, List.filterMap_cons,
      List.getElem?_cons_zero, List.getElem?_cons_succ]
  · norm_num [c1Res]

/-- A single technician with a booked slot, assigned to the single booking:
the identity matching is feasible, so the optimizer cannot do worse. -/
def c1wT : Technician :=
  { id := 1, name := "T", city := "C", current_lat := some 5,
    current_lng := some 0 }

/-- The single booking of the identity-feasible C1 scenario. -/
def c1wB : CustomerBooking :=
  { id := 1, name := "B", phone := "p", city := "C", address := "a",
    pincode := "000001", lat := some 3, lng := some 0, date := 0,
    slot := "09_11", assigned_technician := some 1, status := "assigned" }

/-- The identity-feasible C1 scenario state. -/
def c1wS : State :=
  { technicians := [c1wT],
    slots := [{ technician := 1, date := 0, slot := "09_11", is_booked := true }],
    bookings := [c1wB],
    runs := [], changeRows := [], nextBookingId := 2 }

/-- The optimizer result on `c1wS`. -/
def c1wRes : OptResult :=
  { slot := "09_11", old_distance := 4, new_distance := 4,
    improvement_km := 0, improved := false }

/-- The end-to-end scenario of the spec: technicians T1 at (0, 0) and T2 at
(1, 1); bookings B1 at (0.1, 0.1) assigned to T2 and B2 at (0.9, 0.9)
assigned to T1, both in window "09_11"; both technicians hold booked slots
there. -/
def c2S : State :=
  { technicians :=
      [{ id := 1, name := "T1", city := "M", current_lat := some 0,
         current_lng := some 0 },
       { id := 2, name := "T2", city := "M", current_lat := some 1,
         current_lng := some 1 }],
    slots :=
      [{ technician := 1, date := 0, slot := "09_11", is_booked := true },
       { technician := 2, date := 0, slot := "09_11", is_booked := true }],
    bookings :=
      [{ id := 1, name := "B1", phone := "p", city := "M", address := "a",
         pincode := "000001", lat := some (1/10), lng := some (1/10),
         date := 0, slot := "09_11", assigned_technician := some 2,
         status := "assigned" },
       { id := 2, name := "B2", phone := "p", city := "M", address := "a",
         pincode := "000001", lat := some (9/10), lng := some (9/10),
         date := 0, slot := "09_11", assigned_technician := some 1,
         status := "assigned" }],
    runs := [], changeRows := [], nextBookingId := 3 }

/-- The preview report of the end-to-end scenario. -/
def c2R : Report := preview_optimization sqDist c2S "M" 0

set_option maxHeartbeats 4000000 in
/-- C2: the end-to-end scenario.  The optimizer does match T1 to B1 and T2
to B2 with both change records `changed = true`, and `after_total_km` is
`distance(T1,B1) + distance(T2,B2)`; but `before_total_km` is only
`distance(T2,B1)` instead of the specified
`distance(T2,B1) + distance(T1,B2)`: T1 sits at latitude 0.0, and the
before-state accounting tests `tech.current_lat` for truthiness (Python
`if tech and tech.current_lat and booking.lat:`), so B2's current leg is
dropped.  The code diverges from the spec's expected `before_total_km`. -/
theorem c2_scenario_eval :
    c2R.changes.map (fun c => (c.booking_id, c.new_technician, c.changed)) =
      [(1, "T1", true), (2, "T2", true)] ∧
    c2R.after.total_km = sqDist 0 0 (1/10) (1/10) + sqDist 1 1 (9/10) (9/10) ∧
    c2R.before.total_km = sqDist (1/10) (1/10) 1 1 ∧
    c2R.before.total_km ≠ sqDist (1/10) (1/10) 1 1 + sqDist (9/10) (9/10) 0 0 := by
  refine ⟨?_, ?_, ?_, ?_⟩ <;>
    norm_num [c2R, c2S, preview_optimization, build_current_state,
      previewBookings, sortedSlotKeys, sortLe, insertLe, dedupeStr,
      processGroup, prevStep, mkChange, addTo, addTrip,
      optimize_slot_group, groupTechnicians, dedupeTechs, findTech,
      bothCoords, oldTotalDistance, cellCost, linear_sum_assignment,
      pickMinPerm, totalCost, optimizedTriples, truthyQ, sqDist,
      List.permutations', List.permutations'Aux, List.range_succ,
      Finset.sum_range_succ, List.filterMap_cons, List.getElem?_cons_zero,
      List.getElem?_cons_succ]

/-! ### Swap scenario for the Apply slot-bookkeeping claims (C3, C7)

All four points sit on one meridian, so `sqDist` ranks configurations as
the haversine metric would: T1 at latitude 10, T2 at 13, booking A at 11
(assigned to T1), booking B at 8 (assigned to T2).  The optimal matching is
the swap A-T2, B-T1 (cost 4 + 4 = 8 against the identity 1 + 25 = 26). -/

def c7S : State :=
  { technicians :=
      [{ id := 1, name := "T1", city := "C", current_lat := some 10,
         current_lng := some 0 },
       { id := 2, name := "T2", city := "C", current_lat := some 13,
         current_lng := some 0 }],
    slots :=
      [{ technician := 1, date := 0, slot := "09_11", is_booked := true },
       { technician := 2, date := 0, slot := "09_11", is_booked := true }],
    bookings :=
      [{ id := 1, name := "A", phone := "p", city := "C", address := "a",
         pincode := "000001", lat := some 11, lng := some 0, date := 0,
         slot := "09_11", assigned_technician := some 1,
         status := "assigned" },
       { id := 2, name := "B", phone := "p", city := "C", address := "a",
         pincode := "000001", lat := some 8, lng := some 0, date := 0,
         slot := "09_11", assigned_technician := some 2,
         status := "assigned" }],
    runs := [], changeRows := [], nextBookingId := 3 }

/-- The AssignmentRun created by the first apply on `c7S`. -/
def c7Run1 : AssignmentRun :=
  { city := "C", date := 0, before_total_km := 26, after_total_km := 8,
    distance_saved_km := 18, groups_optimized := 1 }

/-- The state after the first apply on `c7S`: the swap is applied to the
bookings, T2's slot ends booked, but T1's slot ends unbooked even though
booking B is now assigned to T1 — the book-half of B's reassignment was a
silent no-op because T1's unique slot row was still booked when B was
processed, and A's reassignment later freed it. -/
def c7S1 : State :=
  { technicians :=
      [{ id := 1, name := "T1", city := "C", current_lat := some 10,
         current_lng := some 0 },
       { id := 2, name := "T2", city := "C", current_lat := some 13,
         current_lng := some 0 }],
    slots :=
      [{ technician := 1, date := 0, slot := "09_11", is_booked := false },
       { technician := 2, date := 0, slot := "09_11", is_booked := true }],
    bookings :=
      [{ id := 1, name := "A", phone := "p", city := "C", address := "a",
         pincode := "000001", lat := some 11, lng := some 0, date := 0,
         slot := "09_11", assigned_technician := some 2,
         status := "assigned" },
       { id := 2, name := "B", phone := "p", city := "C", address := "a",
         pincode := "000001", lat := some 8, lng := some 0, date := 0,
         slot := "09_11", assigned_technician := some 1,
         status := "assigned" }],
    runs := [c7Run1],
    changeRows :=
      [{ runIdx := 0, booking_id := 2, slot := "09_11", customer_name := "B",
         customer_pincode := "000001", old_technician := some "T2",
         new_technician := "T1", old_km := 25, new_km := 4, delta_km := 21,
         changed := true },
       { runIdx := 0, booking_id := 1, slot := "09_11", customer_name := "A",
         customer_pincode := "000001", old_technician := some "T1",
         new_technician := "T2", old_km := 1, new_km := 4, delta_km := -3,
         changed := true }],
    nextBookingId := 3 }

set_option maxHeartbeats 4000000 in
theorem c7_first_apply :
    apply_optimization sqDist c7S "C" 0 = (c7S1, some c7Run1) := by
  norm_num [apply_optimization, applyTx, applyTxRest, applyTxFinish,
    applyLoop, applyChangeStep, findTechByName, freeOldHalf, bookNewHalf,
    doWrite,
    noneNeSomeNat, strT1T2, strT2T1, strT1T2B, strT2T1B, Option.some.injEq,
    List.find?_cons_of_pos, List.find?_cons_of_neg,
    findBookingApply, unbookOldSlot, bookNewSlot, replaceFirst,
    createChangeRows, c7S, c7S1, c7Run1,
    preview_optimization, build_current_state,
    previewBookings, sortedSlotKeys, sortLe, insertLe, dedupeStr,
    processGroup, prevStep, mkChange, addTo, addTrip,
    optimize_slot_group, groupTechnicians, dedupeTechs, findTech,
    bothCoords, oldTotalDistance, cellCost, linear_sum_assignment,
    pickMinPerm, totalCost, optimizedTriples, truthyQ, sqDist,
    List.permutations', List.permutations'Aux, List.range_succ,
    Finset.sum_range_succ, List.filterMap_cons, List.getElem?_cons_zero,
    List.getElem?_cons_succ]

/-- Number of active (assigned) bookings referencing a slot's
(technician, date, time-window) triple. -/
def activeRefCount (s : State) (sl : AvailabilitySlot) : ℕ :=
  (s.bookings.filter (fun b => b.status == "assigned" &&
    b.assigned_technician == some sl.technician && b.date == sl.date &&
    b.slot == sl.slot)).length

/-- The spec's slot-consistency invariant: a slot's booked flag is true iff
exactly one active booking references that (technician, date, window). -/
def slotInvariant (s : State) : Prop :=
  ∀ sl ∈ s.slots, sl.is_booked = true ↔ activeRefCount s sl = 1

/-- C3: the slot-consistency invariant is not preserved by Apply.  On state
`c7S` the invariant holds, the optimizer proposes the swap A-T2 / B-T1 in
window "09_11", and after `apply_optimization` the booking B is assigned to
T1 while T1's slot row is left unbooked: the slot-free half of B's
reassignment later ran (for A) without its slot-book half, because the new
technician's unique slot row was still booked when B was processed.  The
freeing and booking halves are not performed together, and Apply commits
(no rollback), leaving the invariant broken. -/
theorem c3_slot_invariant_broken :
    slotInvariant c7S ∧
    ¬ slotInvariant (apply_optimization sqDist c7S "C" 0).1 := by
  constructor
  · unfold slotInvariant activeRefCount
    decide
  · rw [c7_first_apply]
    unfold slotInvariant activeRefCount
    decide

/-- The AssignmentRun created by the second apply on the same city/date. -/
def c7Run2 : AssignmentRun :=
  { city := "C", date := 0, before_total_km := 8, after_total_km := 4,
    distance_saved_km := 4, groups_optimized := 1 }

set_option maxHeartbeats 4000000 in
theorem c7_second_apply :
    (apply_optimization sqDist c7S1 "C" 0).2 = some c7Run2 := by
  norm_num [apply_optimization, applyTx, applyTxRest, applyTxFinish,
    applyLoop, applyChangeStep, findTechByName, freeOldHalf, bookNewHalf,
    doWrite,
    noneNeSomeNat, strT1T2, strT2T1, strT1T2B, strT2T1B, Option.some.injEq,
    List.find?_cons_of_pos, List.find?_cons_of_neg,
    findBookingApply, unbookOldSlot, bookNewSlot, replaceFirst,
    createChangeRows, c7S1, c7Run1, c7Run2,
    preview_optimization, build_current_state,
    previewBookings, sortedSlotKeys, sortLe, insertLe, dedupeStr,
    processGroup, prevStep, mkChange, addTo, addTrip,
    optimize_slot_group, groupTechnicians, dedupeTechs, findTech,
    bothCoords, oldTotalDistance, cellCost, linear_sum_assignment,
    pickMinPerm, totalCost, optimizedTriples, truthyQ, sqDist,
    List.permutations', List.permutations'Aux, List.range_succ,
    Finset.sum_range_succ, List.filterMap_cons, List.getElem?_cons_zero,
    List.getElem?_cons_succ]

/-- C7: Apply is not idempotent in effect.  On `c7S` the first apply leaves
state `c7S1` (the swap applied, T1's slot wrongly unbooked); a second apply
with no intervening data change then sees only T2 as a bookable technician,
re-matches booking A to T2, and its AssignmentRun reports
`distance_saved_km = 4` and `groups_optimized = 1` instead of the claimed
zeros. -/
theorem c7_apply_not_idempotent :
    apply_optimization sqDist c7S "C" 0 = (c7S1, some c7Run1) ∧
    (apply_optimization sqDist c7S1 "C" 0).2 = some c7Run2 ∧
    ¬ (c7Run2.distance_saved_km = 0 ∧ c7Run2.groups_optimized = 0) := by
  refine ⟨c7_first_apply, c7_second_apply, ?_⟩
  intro h
  have := h.2
  simp [c7Run2] at this

set_option maxHeartbeats 4000000 in
theorem c4_fault_eval :
    (applyTx sqDist (some 0) c1S "C" 0).2 = none := by
  norm_num [applyTx, applyTxRest, applyTxFinish,
    applyLoop, applyChangeStep, findTechByName, freeOldHalf, bookNewHalf,
    doWrite,
    noneNeSomeNat, strNearFarB, strNearFar, Option.some.injEq,
    List.find?_cons_of_pos, List.find?_cons_of_neg,
    findBookingApply, unbookOldSlot, bookNewSlot, replaceFirst,
    createChangeRows, c1S,
    preview_optimization, build_current_state,
    previewBookings, sortedSlotKeys, sortLe, insertLe, dedupeStr,
    processGroup, prevStep, mkChange, addTo, addTrip,
    optimize_slot_group, groupTechnicians, dedupeTechs, findTech,
    bothCoords, oldTotalDistance, cellCost, linear_sum_assignment,
    pickMinPerm, totalCost, optimizedTriples, truthyQ, sqDist,
    List.permutations', List.permutations'Aux, List.range_succ,
    Finset.sum_range_succ, List.filterMap_cons, List.getElem?_cons_zero,
    List.getElem?_cons_succ]

/-- C4 witness: on state `c1S` with a fault injected at the first write, the
apply call fails and the observed state is exactly the original `c1S`. -/
theorem c4_apply_all_or_nothing_witness :
    (applyTx sqDist (some 0) c1S "C" 0).2 = none ∧
    (applyTx sqDist (some 0) c1S "C" 0).1 = c1S :=
  ⟨c4_fault_eval,
   (c4_apply_all_or_nothing sqDist (some 0) c1S "C" 0 c4_fault_eval).1⟩

/-- C5: preview_optimization is referentially transparent.  The preview
endpoint, viewed as a state transformer, returns the state unchanged (no
AvailabilitySlot, CustomerBooking or Technician row is mutated — the
embedded preview path contains no write), and a second preview call against
the unchanged state returns a report identical to the first. -/
theorem c5_preview_referentially_transparent (d : ℚ → ℚ → ℚ → ℚ → ℚ)
    (s : State) (city : String) (dt : ℕ) :
    (previewEndpoint d s city dt).2 = s ∧
    (previewEndpoint d (previewEndpoint d s city dt).2 city dt).1 =
      (previewEndpoint d s city dt).1 :=
  ⟨rfl, rfl⟩

/-- One technician holding a booked slot, two bookings in the group, both
assigned and geocoded; the matrix is padded to 2×2 and the second booking is
matched to the padding row. -/
def c8S : State :=
  { technicians :=
      [{ id := 1, name := "T1", city := "C", current_lat := some 5,
         current_lng := some 0 }],
    slots := [{ technician := 1, date := 0, slot := "09_11", is_booked := true }],
    bookings :=
      [{ id := 1, name := "B1", phone := "p", city := "C", address := "a",
         pincode := "000001", lat := some 6, lng := some 0, date := 0,
         slot := "09_11", assigned_technician := some 1,
         status := "assigned" },
       { id := 2, name := "B2", phone := "p", city := "C", address := "a",
         pincode := "000001", lat := some 9, lng := some 0, date := 0,
         slot := "09_11", assigned_technician := some 1,
         status := "assigned" }],
    runs := [], changeRows := [], nextBookingId := 3 }

/-- C8: counterexample.  On `c8S`, booking 2 is part of the preview's slot
group (assigned, with resolved coordinates), yet the preview emits change
records only for booking 1: a booking matched to a padding row gets no
change record, refuting "exactly one change record for every booking
included in the slot group". -/
theorem c8_counterexample :
    (preview_optimization sqDist c8S "C" 0).changes.map
      (fun c => c.booking_id) = [1] ∧
    (previewBookings c8S "C" 0).map (fun b => b.id) = [1, 2] := by
  constructor <;>
    norm_num [c8S, preview_optimization, build_current_state,
      previewBookings, sortedSlotKeys, sortLe, insertLe, dedupeStr,
      processGroup, prevStep, mkChange, addTo, addTrip,
      optimize_slot_group, groupTechnicians, dedupeTechs, findTech,
      bothCoords, oldTotalDistance, cellCost, linear_sum_assignment,
      pickMinPerm, totalCost, optimizedTriples, truthyQ, sqDist,
      List.permutations', List.permutations'Aux, List.range_succ,
      Finset.sum_range_succ, List.filterMap_cons, List.getElem?_cons_zero,
      List.getElem?_cons_succ]

/-- Two technicians named "X": id 3 (nearest to the booking, holding a
booked slot — the optimizer's proposal) and id 2 (far away, holding no slot,
but the smallest primary key among the technicians named "X"); the booking
is assigned to technician "A" (id 1), also with a booked slot. -/
def c10S : State :=
  { technicians :=
      [{ id := 3, name := "X", city := "C", current_lat := some 12,
         current_lng := some 0 },
       { id := 1, name := "A", city := "C", current_lat := some 99,
         current_lng := some 0 },
       { id := 2, name := "X", city := "C", current_lat := some 100,
         current_lng := some 0 }],
    slots :=
      [{ technician := 1, date := 0, slot := "09_11", is_booked := true },
       { technician := 3, date := 0, slot := "09_11", is_booked := true }],
    bookings :=
      [{ id := 1, name := "B", phone := "p", city := "C", address := "a",
         pincode := "000001", lat := some 11, lng := some 0, date := 0,
         slot := "09_11", assigned_technician := some 1,
         status := "assigned" }],
    runs := [], changeRows := [], nextBookingId := 2 }

/-- C10: apply resolves the new technician by name, not id.  On `c10S` the
optimizer matches the booking to technician id 3 (named "X", the nearest
booked-slot holder), the change record carries only the name snapshot "X",
and apply reassigns the booking to technician id 2 — the smallest-id
technician named "X", since `filter(name=...).first()` on the unordered
Technician model orders by primary key — a different technician than the
one Preview proposed. -/
theorem c10_name_lookup_divergence :
    (optimize_slot_group sqDist c10S "C" "09_11"
      (previewBookings c10S "C" 0) 0).2.map (fun tr => tr.2.1.id) = [3] ∧
    (preview_optimization sqDist c10S "C" 0).changes.map
      (fun c => (c.booking_id, c.new_technician, c.changed)) =
      [(1, "X", true)] ∧
    (apply_optimization sqDist c10S "C" 0).1.bookings.map
      (fun b => b.assigned_technician) = [some 2] := by
  refine ⟨?_, ?_, ?_⟩ <;>
    norm_num [c10S, apply_optimization, applyTx, applyTxRest, applyTxFinish,
      applyLoop, applyChangeStep, findTechByName, freeOldHalf, bookNewHalf,
      doWrite, noneNeSomeNat, strXAB, strXA, strAXB, strAX, Option.some.injEq,
      List.find?_cons_of_pos, List.find?_cons_of_neg,
      findBookingApply, unbookOldSlot, bookNewSlot, replaceFirst,
      createChangeRows, preview_optimization, build_current_state,
      previewBookings, sortedSlotKeys, sortLe, insertLe, dedupeStr,
      processGroup, prevStep, mkChange, addTo, addTrip,
      optimize_slot_group, groupTechnicians, dedupeTechs, findTech,
      bothCoords, oldTotalDistance, cellCost, linear_sum_assignment,
      pickMinPerm, totalCost, optimizedTriples, truthyQ, sqDist,
      List.permutations', List.permutations'Aux, List.range_succ,
      Finset.sum_range_succ, List.filterMap_cons, List.getElem?_cons_zero,
      List.getElem?_cons_succ]

/-! ### Infrastructure for the optimality bound (C1) -/

/-- The booking's currently assigned technician record (total function; the
hypotheses of the theorems using it guarantee the lookup succeeds). -/
def assignedTech (s : State) (bk : CustomerBooking) : Technician :=
  (bk.assigned_technician.bind (findTech s)).getD default

/-- The before-distance term of one booking. -/
def oldTerm (d : ℚ → ℚ → ℚ → ℚ → ℚ) (s : State) (bk : CustomerBooking) : ℚ :=
  d (bk.lat.getD 0) (bk.lng.getD 0)
    ((assignedTech s bk).current_lat.getD 0)
    ((assignedTech s bk).current_lng.getD 0)

theorem list_map_sum_eq_range (g : α → ℚ) (x0 : α) :
    ∀ l : List α, (l.map g).sum = ∑ j in Finset.range l.length, g (l.getD j x0)
  | [] => by simp
  | x :: xs => by
    rw [List.map_cons, List.sum_cons, List.length_cons,
      Finset.sum_range_succ' (fun j => g ((x :: xs).getD j x0)) xs.length]
    simp only [List.getD_cons_succ, List.getD_cons_zero]
    rw [list_map_sum_eq_range g x0 xs]
    ring

theorem oldTotal_go (d : ℚ → ℚ → ℚ → ℚ → ℚ) (s : State) :
    ∀ (bs : List CustomerBooking) (init : ℚ),
      (∀ bk ∈ bs, bk.assigned_technician.bind (findTech s) =
          some (assignedTech s bk) ∧
        truthyQ (assignedTech s bk).current_lat = true ∧
        truthyQ bk.lat = true) →
      bs.foldl (fun acc bk =>
        match bk.assigned_technician.bind (findTech s) with
        | some t =>
          if truthyQ t.current_lat && truthyQ bk.lat then
            acc + d (bk.lat.getD 0) (bk.lng.getD 0)
                (t.current_lat.getD 0) (t.current_lng.getD 0)
          else acc
        | none => acc) init =
      init + (bs.map (oldTerm d s)).sum
  | [], init, _ => by simp
  | bk :: bs, init, h => by
    have hbk := h bk (List.mem_cons_self bk bs)
    rw [List.foldl_cons, hbk.1]
    simp only [hbk.2.1, hbk.2.2, Bool.and_self, if_pos]
    rw [oldTotal_go d s bs _ (fun b hb => h b (List.mem_cons_of_mem bk hb))]
    simp only [List.map_cons, List.sum_cons, oldTerm]
    ring

theorem oldTotalDistance_eq_sum (d : ℚ → ℚ → ℚ → ℚ → ℚ) (s : State)
    (bs : List CustomerBooking)
    (h : ∀ bk ∈ bs, bk.assigned_technician.bind (findTech s) =
        some (assignedTech s bk) ∧
      truthyQ (assignedTech s bk).current_lat = true ∧
      truthyQ bk.lat = true) :
    oldTotalDistance d s bs = (bs.map (oldTerm d s)).sum := by
  unfold oldTotalDistance
  rw [oldTotal_go d s bs 0 h, zero_add]

/-- The condition under which row `i` contributes a materialized triple. -/
def realRow (techs : List Technician) (coords : List CustomerBooking)
    (q : List ℕ) (i : ℕ) : Prop :=
  i < techs.length ∧ q.getD i 0 < coords.length ∧
    (techs.getD i default).current_lat.isSome = true ∧
    (techs.getD i default).current_lng.isSome = true

instance (techs : List Technician) (coords : List CustomerBooking)
    (q : List ℕ) (i : ℕ) : Decidable (realRow techs coords q i) := by
  unfold realRow; infer_instance

/-- The distance recorded in a materialized triple for row `i`. -/
def tripDist (d : ℚ → ℚ → ℚ → ℚ → ℚ) (techs : List Technician)
    (coords : List CustomerBooking) (q : List ℕ) (i : ℕ) : ℚ :=
  d ((techs.getD i default).current_lat.getD 0)
    ((techs.getD i default).current_lng.getD 0)
    ((coords.getD (q.getD i 0) default).lat.getD 0)
    ((coords.getD (q.getD i 0) default).lng.getD 0)

theorem optimizedTriples_go (d : ℚ → ℚ → ℚ → ℚ → ℚ) (techs : List Technician)
    (coords : List CustomerBooking) (q : List ℕ) :
    ∀ l : List ℕ,
      ((l.filterMap (fun i =>
        let j := q.getD i 0
        if i < techs.length then
          if j < coords.length then
            let t := techs.getD i default
            let bk := coords.getD j default
            match t.current_lat, t.current_lng with
            | some tl, some tg =>
              some (bk, t, d tl tg (bk.lat.getD 0) (bk.lng.getD 0))
            | _, _ => none
          else none
        else none)).map (fun x => x.2.2)).sum =
      (l.map (fun i => if realRow techs coords q i then
        tripDist d techs coords q i else 0)).sum
  | [] => by simp
  | i :: l => by
    rw [List.map_cons, List.sum_cons, ← optimizedTriples_go d techs coords q l]
    by_cases h1 : i < techs.length
    · by_cases h2 : q.getD i 0 < coords.length
      · cases hlat : (techs.getD i default).current_lat with
        | none =>
          have hnone : (if i < techs.length then
              if q.getD i 0 < coords.length then
                match (techs.getD i default).current_lat,
                    (techs.getD i default).current_lng with
                | some tl, some tg =>
                  some (coords.getD (q.getD i 0) default, techs.getD i default,
                    d tl tg ((coords.getD (q.getD i 0) default).lat.getD 0)
                      ((coords.getD (q.getD i 0) default).lng.getD 0))
                | _, _ => none
              else none
            else none) = none := by
            rw [if_pos h1, if_pos h2, hlat]
          rw [List.filterMap_cons]
          dsimp only
          rw [hnone]
          have hnot : ¬ realRow techs coords q i := by
            intro hr
            obtain ⟨-, -, hl, -⟩ := hr
            rw [hlat] at hl
            exact absurd hl (by simp)
          rw [if_neg hnot]
          simp
        | some tl =>
          cases hlng : (techs.getD i default).current_lng with
          | none =>
            have hnone : (if i < techs.length then
                if q.getD i 0 < coords.length then
                  match (techs.getD i default).current_lat,
                      (techs.getD i default).current_lng with
                  | some tl, some tg =>
                    some (coords.getD (q.getD i 0) default, techs.getD i default,
                      d tl tg ((coords.getD (q.getD i 0) default).lat.getD 0)
                        ((coords.getD (q.getD i 0) default).lng.getD 0))
                  | _, _ => none
                else none
              else none) = none := by
              rw [if_pos h1, if_pos h2, hlat, hlng]
            rw [List.filterMap_cons]
            dsimp only
            rw [hnone]
            have hnot : ¬ realRow techs coords q i := by
              intro hr
              obtain ⟨-, -, -, hl⟩ := hr
              rw [hlng] at hl
              exact absurd hl (by simp)
            rw [if_neg hnot]
            simp
          | some tg =>
            have hsome : (if i < techs.length then
                if q.getD i 0 < coords.length then
                  match (techs.getD i default).current_lat,
                      (techs.getD i default).current_lng with
                  | some tl, some tg =>
                    some (coords.getD (q.getD i 0) default, techs.getD i default,
                      d tl tg ((coords.getD (q.getD i 0) default).lat.getD 0)
                        ((coords.getD (q.getD i 0) default).lng.getD 0))
                  | _, _ => none
                else none
              else none) = some (coords.getD (q.getD i 0) default,
                techs.getD i default,
                d tl tg ((coords.getD (q.getD i 0) default).lat.getD 0)
                  ((coords.getD (q.getD i 0) default).lng.getD 0)) := by
              rw [if_pos h1, if_pos h2, hlat, hlng]
            rw [List.filterMap_cons]
            dsimp only
            rw [hsome]
            have hr : realRow techs coords q i :=
              ⟨h1, h2, by rw [hlat]; rfl, by rw [hlng]; rfl⟩
            rw [if_pos hr]
            simp only [List.map_cons, List.sum_cons]
            have hd : tripDist d techs coords q i =
                d tl tg ((coords.getD (q.getD i 0) default).lat.getD 0)
                  ((coords.getD (q.getD i 0) default).lng.getD 0) := by
              unfold tripDist
              rw [hlat, hlng]
              rfl
            rw [hd]
      · have hnone : (if i < techs.length then
            if q.getD i 0 < coords.length then
              match (techs.getD i default).current_lat,
                  (techs.getD i default).current_lng with
              | some tl, some tg =>
                some (coords.getD (q.getD i 0) default, techs.getD i default,
                  d tl tg ((coords.getD (q.getD i 0) default).lat.getD 0)
                    ((coords.getD (q.getD i 0) default).lng.getD 0))
              | _, _ => none
            else none
          else none) = none := by
          rw [if_pos h1, if_neg h2]
        rw [List.filterMap_cons]
        dsimp only
        rw [hnone]
        have hnot : ¬ realRow techs coords q i := fun hr => h2 hr.2.1
        rw [if_neg hnot]
        simp
    · have hnone : (if i < techs.length then
          if q.getD i 0 < coords.length then
            match (techs.getD i default).current_lat,
                (techs.getD i default).current_lng with
            | some tl, some tg =>
              some (coords.getD (q.getD i 0) default, techs.getD i default,
                d tl tg ((coords.getD (q.getD i 0) default).lat.getD 0)
                  ((coords.getD (q.getD i 0) default).lng.getD 0))
            | _, _ => none
          else none
        else none) = none := by
        rw [if_neg h1]
      rw [List.filterMap_cons]
      dsimp only
      rw [hnone]
      have hnot : ¬ realRow techs coords q i := fun hr => h1 hr.1
      rw [if_neg hnot]
      simp

/-- On a real row the matrix cell equals the recorded triple distance. -/
theorem cellCost_eq_tripDist (d : ℚ → ℚ → ℚ → ℚ → ℚ) (techs : List Technician)
    (coords : List CustomerBooking) (q : List ℕ) (i : ℕ)
    (hr : realRow techs coords q i) :
    cellCost d techs coords i (q.getD i 0) = tripDist d techs coords q i := by
  obtain ⟨h1, h2, hlat, hlng⟩ := hr
  unfold cellCost tripDist
  rw [List.get?_eq_getElem?, List.get?_eq_getElem?,
    List.getElem?_eq_getElem h1, List.getElem?_eq_getElem h2]
  have e1 : techs.getD i default = techs[i] := by
    rw [List.getD_eq_getElem?_getD, List.getElem?_eq_getElem h1]
    rfl
  have e2 : coords.getD (q.getD i 0) default = coords[q.getD i 0] := by
    rw [List.getD_eq_getElem?_getD, List.getElem?_eq_getElem h2]
    rfl
  rw [e1] at hlat hlng
  rw [e1, e2]
  cases hl : techs[i].current_lat with
  | none => rw [hl] at hlat; simp at hlat
  | some tl =>
    cases hg : techs[i].current_lng with
    | none => rw [hg] at hlng; simp at hlng
    | some tg => simp [hl, hg]

/-- A padded or unpositioned row costs exactly the 1e6 sentinel. -/
theorem cellCost_sentinel (d : ℚ → ℚ → ℚ → ℚ → ℚ) (techs : List Technician)
    (coords : List CustomerBooking) (q : List ℕ) (i : ℕ)
    (h1 : i < techs.length) (hr : ¬ realRow techs coords q i) :
    cellCost d techs coords i (q.getD i 0) = 1000000 := by
  unfold cellCost
  by_cases h2 : q.getD i 0 < coords.length
  · rw [List.get?_eq_getElem?, List.get?_eq_getElem?,
      List.getElem?_eq_getElem h1, List.getElem?_eq_getElem h2]
    have e1 : techs.getD i default = techs[i] := by
      rw [List.getD_eq_getElem?_getD, List.getElem?_eq_getElem h1]
      rfl
    cases hl : techs[i].current_lat with
    | none => simp [hl]
    | some tl =>
      cases hg : techs[i].current_lng with
      | none => simp [hl, hg]
      | some tg =>
        exact absurd ⟨h1, h2, by rw [e1, hl]; rfl, by rw [e1, hg]; rfl⟩ hr
  · have : coords.get? (q.getD i 0) = none := by
      rw [List.get?_eq_getElem?, List.getElem?_eq_none_iff]
      omega
    rw [this]
    cases techs.get? i <;> rfl

/-- A column index beyond the bookings is a padding column: sentinel cost. -/
theorem cellCost_col_pad (d : ℚ → ℚ → ℚ → ℚ → ℚ) (techs : List Technician)
    (coords : List CustomerBooking) (i j : ℕ) (hj : coords.length ≤ j) :
    cellCost d techs coords i j = 1000000 := by
  unfold cellCost
  have hn : coords.get? j = none := by
    rw [List.get?_eq_getElem?, List.getElem?_eq_none_iff]
    omega
  rw [hn]
  cases techs.get? i <;> rfl

/-- Extending a nodup list of indices below `t` with the missing indices
yields a permutation of `range t`. -/
theorem construct_perm (t : ℕ) (idxList : List ℕ) (hn : idxList.Nodup)
    (hsub : ∀ x ∈ idxList, x < t) :
    List.Perm (idxList ++ (List.range t).filter (fun i => i ∉ idxList))
      (List.range t) := by
  have hfn : ((List.range t).filter (fun i => i ∉ idxList)).Nodup :=
    (List.nodup_range t).filter _
  have hdisj : idxList.Disjoint ((List.range t).filter (fun i => i ∉ idxList)) := by
    intro a ha hb
    rw [List.mem_filter] at hb
    exact absurd ha (by simpa using hb.2)
  have hnd : (idxList ++ (List.range t).filter (fun i => i ∉ idxList)).Nodup :=
    List.Nodup.append hn hfn hdisj
  have hsub' : (idxList ++ (List.range t).filter (fun i => i ∉ idxList)) ⊆
      List.range t := by
    intro a ha
    rcases List.mem_append.mp ha with h | h
    · exact List.mem_range.mpr (hsub a h)
    · exact (List.mem_filter.mp h).1
  have hsup : List.range t ⊆
      (idxList ++ (List.range t).filter (fun i => i ∉ idxList)) := by
    intro a ha
    by_cases hm : a ∈ idxList
    · exact List.mem_append.mpr (Or.inl hm)
    · exact List.mem_append.mpr (Or.inr (List.mem_filter.mpr ⟨ha, by simpa using hm⟩))
  exact (hnd.subperm hsub').antisymm ((List.nodup_range t).subperm hsup)

/-- The pointwise-indexOf list of a permutation of `range t` is itself a
permutation of `range t`. -/
theorem indexOf_map_perm (t : ℕ) (p : List ℕ)
    (hp : List.Perm p (List.range t)) :
    List.Perm ((List.range t).map (fun i => p.indexOf i)) (List.range t) := by
  have hlen : p.length = t := by simpa using hp.length_eq
  have hpn : p.Nodup := hp.nodup_iff.mpr (List.nodup_range t)
  have hmem : ∀ i, i < t → i ∈ p := fun i hi =>
    hp.mem_iff.mpr (List.mem_range.mpr hi)
  have hnd : ((List.range t).map (fun i => p.indexOf i)).Nodup := by
    refine (List.nodup_range t).map_on ?_
    intro x hx y hy hxy
    have hxp := hmem x (List.mem_range.mp hx)
    have hyp := hmem y (List.mem_range.mp hy)
    have h1 := List.indexOf_get (List.indexOf_lt_length.mpr hxp)
    have h2 := List.indexOf_get (List.indexOf_lt_length.mpr hyp)
    rw [← h1, ← h2]
    congr 1
    exact Fin.ext hxy
  have hsub : ((List.range t).map (fun i => p.indexOf i)) ⊆ List.range t := by
    intro a ha
    rcases List.mem_map.mp ha with ⟨i, hi, rfl⟩
    have : p.indexOf i < p.length :=
      List.indexOf_lt_length.mpr (hmem i (List.mem_range.mp hi))
    exact List.mem_range.mpr (by omega)
  have hsup : List.range t ⊆ ((List.range t).map (fun i => p.indexOf i)) := by
    intro j hj
    have hj' : j < p.length := by rw [hlen]; exact List.mem_range.mp hj
    refine List.mem_map.mpr ⟨p.get ⟨j, hj'⟩, ?_, ?_⟩
    · have : p.get ⟨j, hj'⟩ ∈ p := List.get_mem p j hj'
      exact hp.mem_iff.mp this
    · exact List.get_indexOf hpn _
  exact (hnd.subperm hsub).antisymm ((List.nodup_range t).subperm hsup)

/-- getD of a permutation of `range t` at the index of `a` recovers `a`. -/
theorem getD_indexOf_self (t : ℕ) (p : List ℕ)
    (hp : List.Perm p (List.range t)) (a : ℕ) (ha : a ∈ p) :
    p.getD (p.indexOf a) 0 = a := by
  have h : p.indexOf a < p.length := List.indexOf_lt_length.mpr ha
  rw [List.getD_eq_getElem?_getD, List.getElem?_eq_getElem h]
  have := List.indexOf_get h
  simpa [List.get_eq_getElem] using this

/-- Reindexing a row-indexed cost sum along a permutation of rows. -/
theorem totalCost_reindex (cost : ℕ → ℕ → ℚ) (t : ℕ) (p : List ℕ)
    (hp : List.Perm p (List.range t)) :
    ∑ i in Finset.range t, cost i (p.indexOf i) =
      ∑ j in Finset.range t, cost (p.getD j 0) j := by
  have hlen : p.length = t := by simpa using hp.length_eq
  have hpn : p.Nodup := hp.nodup_iff.mpr (List.nodup_range t)
  have hmem : ∀ i, i < t → i ∈ p := fun i hi =>
    hp.mem_iff.mpr (List.mem_range.mpr hi)
  have hget : ∀ j, j < t → p.getD j 0 < t := by
    intro j hj
    have hj' : j < p.length := by omega
    rw [List.getD_eq_getElem?_getD, List.getElem?_eq_getElem hj']
    have : p[j] ∈ p := List.getElem_mem hj'
    exact List.mem_range.mp (hp.mem_iff.mp this)
  refine Finset.sum_nbij' (fun i => p.indexOf i) (fun j => p.getD j 0)
    ?_ ?_ ?_ ?_ ?_
  · intro a ha
    dsimp only
    have : p.indexOf a < p.length :=
      List.indexOf_lt_length.mpr (hmem a (Finset.mem_range.mp ha))
    exact Finset.mem_range.mpr (by omega)
  · intro b hb
    dsimp only
    exact Finset.mem_range.mpr (hget b (Finset.mem_range.mp hb))
  · intro a ha
    dsimp only
    exact getD_indexOf_self t p hp a (hmem a (Finset.mem_range.mp ha))
  · intro b hb
    dsimp only
    have hb' : b < p.length := by rw [hlen]; exact Finset.mem_range.mp hb
    have e : p.getD b 0 = p.get ⟨b, hb'⟩ := by
      rw [List.getD_eq_getElem?_getD, List.getElem?_eq_getElem hb']
      rfl
    rw [e]
    exact List.get_indexOf hpn _
  · intro a ha
    dsimp only
    congr 1
    exact (getD_indexOf_self t p hp a (hmem a (Finset.mem_range.mp ha))).symm

/-- The matrix cell of a technician's own row against a real column. -/
theorem cellCost_indexOf (d : ℚ → ℚ → ℚ → ℚ → ℚ) (techs : List Technician)
    (coords : List CustomerBooking) (tc : Technician) (bk : CustomerBooking)
    (j : ℕ) (htc : tc ∈ techs) (hj : j < coords.length)
    (hbk : coords.getD j default = bk)
    (hlat : tc.current_lat.isSome = true) (hlng : tc.current_lng.isSome = true) :
    cellCost d techs coords (techs.indexOf tc) j =
      d (tc.current_lat.getD 0) (tc.current_lng.getD 0)
        (bk.lat.getD 0) (bk.lng.getD 0) := by
  unfold cellCost
  have hidx : techs.indexOf tc < techs.length := List.indexOf_lt_length.mpr htc
  rw [List.get?_eq_getElem?, List.getElem?_eq_getElem hidx,
    List.get?_eq_getElem?, List.getElem?_eq_getElem hj]
  have e1 : techs[techs.indexOf tc] = tc := by
    have := List.indexOf_get hidx
    simpa [List.get_eq_getElem] using this
  have e2 : coords[j] = bk := by
    rw [← hbk, List.getD_eq_getElem?_getD, List.getElem?_eq_getElem hj]
    rfl
  rw [e1, e2]
  obtain ⟨ta, hta⟩ := Option.isSome_iff_exists.mp hlat
  obtain ⟨tb, htb⟩ := Option.isSome_iff_exists.mp hlng
  simp [hta, htb]

/-- The feasibility hypotheses of the amended C1 statement: every booking of
the group has resolved truthy coordinates, an assigned technician that holds
a booked slot in the group (hence appears in the group's technician pool)
with a truthy, fully known position, and no two bookings share a technician. -/
def IdentityFeasible (s : State) (city slot : String) (dt : ℕ)
    (bs : List CustomerBooking) : Prop :=
  (∀ bk ∈ bs,
    bothCoords bk = true ∧
    truthyQ bk.lat = true ∧
    bk.assigned_technician.bind (findTech s) = some (assignedTech s bk) ∧
    assignedTech s bk ∈ groupTechnicians s city dt slot ∧
    truthyQ (assignedTech s bk).current_lat = true ∧
    (assignedTech s bk).current_lat.isSome = true ∧
    (assignedTech s bk).current_lng.isSome = true) ∧
  (bs.map (fun bk => (assignedTech s bk).id)).Nodup

instance (s : State) (city slot : String) (dt : ℕ)
    (bs : List CustomerBooking) :
    Decidable (IdentityFeasible s city slot dt bs) := by
  unfold IdentityFeasible; infer_instance

/-- Under the feasibility hypotheses, the bookings are pairwise distinct and
the indexOf list of their assigned technicians is a nodup list of indices
below the technician count. -/
theorem idxList_facts (s : State) (techs : List Technician)
    (bs : List CustomerBooking)
    (hmem : ∀ bk ∈ bs, assignedTech s bk ∈ techs)
    (hids : (bs.map (fun bk => (assignedTech s bk).id)).Nodup) :
    (bs.map (fun bk => techs.indexOf (assignedTech s bk))).Nodup ∧
    (∀ x ∈ bs.map (fun bk => techs.indexOf (assignedTech s bk)),
      x < techs.length) ∧
    bs.length ≤ techs.length := by
  have hbsnd : bs.Nodup := hids.of_map
  have hinj : ∀ x ∈ bs, ∀ y ∈ bs,
      techs.indexOf (assignedTech s x) = techs.indexOf (assignedTech s y) →
      x = y := by
    intro x hx y hy hxy
    have hmx := hmem x hx
    have hmy := hmem y hy
    have htx : assignedTech s x = assignedTech s y := by
      have h1 := List.indexOf_get (List.indexOf_lt_length.mpr hmx)
      have h2 := List.indexOf_get (List.indexOf_lt_length.mpr hmy)
      rw [← h1, ← h2]
      congr 1
      exact Fin.ext hxy
    exact List.inj_on_of_nodup_map hids hx hy (by rw [htx])
  have hnd : (bs.map (fun bk => techs.indexOf (assignedTech s bk))).Nodup :=
    hbsnd.map_on hinj
  have hsub : ∀ x ∈ bs.map (fun bk => techs.indexOf (assignedTech s bk)),
      x < techs.length := by
    intro x hx
    rcases List.mem_map.mp hx with ⟨bk, hbk, rfl⟩
    exact List.indexOf_lt_length.mpr (hmem bk hbk)
  refine ⟨hnd, hsub, ?_⟩
  have hsub' : (bs.map (fun bk => techs.indexOf (assignedTech s bk))) ⊆
      List.range techs.length := by
    intro x hx
    exact List.mem_range.mpr (hsub x hx)
  have := (hnd.subperm hsub').length_le
  simpa using this

/-- Total matrix cost of the inverse of a row permutation whose first
`bs.length` columns are matched to each booking's own technician: the old
total distance plus sentinel costs for the padding columns. -/
theorem identity_cost_eq (d : ℚ → ℚ → ℚ → ℚ → ℚ) (s : State)
    (techs : List Technician) (bs : List CustomerBooking) (p : List ℕ)
    (hsym : ∀ a b c e, d a b c e = d c e a b)
    (H : ∀ bk ∈ bs,
      truthyQ bk.lat = true ∧
      bk.assigned_technician.bind (findTech s) = some (assignedTech s bk) ∧
      assignedTech s bk ∈ techs ∧
      truthyQ (assignedTech s bk).current_lat = true ∧
      (assignedTech s bk).current_lat.isSome = true ∧
      (assignedTech s bk).current_lng.isSome = true)
    (hble : bs.length ≤ techs.length)
    (hpperm : p.Perm (List.range techs.length))
    (hpfirst : ∀ j, j < bs.length →
      p.getD j 0 = techs.indexOf (assignedTech s (bs.getD j default))) :
    totalCost (cellCost d techs bs)
      ((List.range techs.length).map (fun i => p.indexOf i)) =
      oldTotalDistance d s bs +
        ((techs.length - bs.length : ℕ) : ℚ) * 1000000 := by
  have hqidgetD : ∀ i, i < techs.length →
      ((List.range techs.length).map (fun i => p.indexOf i)).getD i 0 =
        p.indexOf i := by
    intro i hi
    rw [List.getD_eq_getElem?_getD, List.getElem?_map, List.getElem?_range hi]
    rfl
  unfold totalCost
  rw [show ((List.range techs.length).map (fun i => p.indexOf i)).length =
    techs.length by simp]
  rw [Finset.sum_congr rfl (fun i hi => by
    rw [hqidgetD i (Finset.mem_range.mp hi)])]
  rw [totalCost_reindex (cellCost d techs bs) techs.length p hpperm]
  have hsplit := Finset.sum_Ico_consecutive
    (fun j => cellCost d techs bs (p.getD j 0) j)
    (Nat.zero_le bs.length) hble
  rw [Finset.range_eq_Ico, ← hsplit]
  have hfirst : ∑ j in Finset.Ico 0 bs.length,
      cellCost d techs bs (p.getD j 0) j = oldTotalDistance d s bs := by
    rw [← Finset.range_eq_Ico]
    have hPoint : ∀ j ∈ Finset.range bs.length,
        cellCost d techs bs (p.getD j 0) j =
          oldTerm d s (bs.getD j default) := by
      intro j hj
      have hjb : j < bs.length := Finset.mem_range.mp hj
      have hbkmem : bs.getD j default ∈ bs := by
        rw [List.getD_eq_getElem?_getD, List.getElem?_eq_getElem hjb]
        exact List.getElem_mem hjb
      obtain ⟨hbt, hbind, hmem, htl, hls, hgs⟩ := H _ hbkmem
      rw [hpfirst j hjb]
      rw [cellCost_indexOf d techs bs _ _ j hmem hjb rfl hls hgs]
      rw [hsym]
      rfl
    rw [Finset.sum_congr rfl hPoint]
    rw [← list_map_sum_eq_range (oldTerm d s) default bs]
    exact (oldTotalDistance_eq_sum d s bs (fun bk hbk =>
      ⟨(H bk hbk).2.1, (H bk hbk).2.2.2.1, (H bk hbk).1⟩)).symm
  have hsecond : ∑ j in Finset.Ico bs.length techs.length,
      cellCost d techs bs (p.getD j 0) j =
      ((techs.length - bs.length : ℕ) : ℚ) * 1000000 := by
    have hPoint : ∀ j ∈ Finset.Ico bs.length techs.length,
        cellCost d techs bs (p.getD j 0) j = 1000000 := by
      intro j hj
      exact cellCost_col_pad d techs bs _ j (Finset.mem_Ico.mp hj).1
    rw [Finset.sum_congr rfl hPoint, Finset.sum_const, Nat.card_Ico,
      nsmul_eq_mul]
  rw [hfirst, hsecond]

/-- The materialized total plus the forced padding cost bounds the chosen
assignment's total matrix cost from below. -/
theorem chosen_cost_bound (d : ℚ → ℚ → ℚ → ℚ → ℚ)
    (techs : List Technician) (bs : List CustomerBooking) (q : List ℕ)
    (hqperm : q.Perm (List.range techs.length)) :
    ((optimizedTriples d techs bs q techs.length).map (fun x => x.2.2)).sum +
      ((techs.length - bs.length : ℕ) : ℚ) * 1000000 ≤
      totalCost (cellCost d techs bs) q := by
  have hqlen : q.length = techs.length := by simpa using hqperm.length_eq
  have hqnd : q.Nodup := hqperm.nodup_iff.mpr (List.nodup_range techs.length)
  have hrg : ∀ i, i < techs.length → (List.range techs.length).getD i 0 = i := by
    intro i hi
    rw [List.getD_eq_getElem?_getD, List.getElem?_range hi]
    rfl
  have hnewEq : ((optimizedTriples d techs bs q techs.length).map
      (fun x => x.2.2)).sum =
      ∑ i in (Finset.range techs.length).filter (realRow techs bs q),
        tripDist d techs bs q i := by
    unfold optimizedTriples
    rw [optimizedTriples_go d techs bs q (List.range techs.length)]
    rw [list_map_sum_eq_range _ 0 (List.range techs.length)]
    rw [List.length_range]
    rw [Finset.sum_congr rfl (fun i hi => by
      rw [hrg i (Finset.mem_range.mp hi)])]
    rw [Finset.sum_filter]
  have htotq : totalCost (cellCost d techs bs) q =
      (∑ i in (Finset.range techs.length).filter (realRow techs bs q),
        tripDist d techs bs q i) +
      ((Finset.range techs.length).filter
        (fun i => ¬ realRow techs bs q i)).card • (1000000 : ℚ) := by
    unfold totalCost
    rw [hqlen]
    rw [← Finset.sum_filter_add_sum_filter_not (Finset.range techs.length)
      (realRow techs bs q) (fun i => cellCost d techs bs i (q.getD i 0))]
    congr 1
    · exact Finset.sum_congr rfl (fun i hi =>
        cellCost_eq_tripDist d techs bs q i (Finset.mem_filter.mp hi).2)
    · rw [Finset.sum_congr rfl (fun i hi =>
        cellCost_sentinel d techs bs q i
          (Finset.mem_range.mp (Finset.mem_filter.mp hi).1)
          (Finset.mem_filter.mp hi).2), Finset.sum_const]
  have hcardP : ((Finset.range techs.length).filter (realRow techs bs q)).card ≤
      bs.length := by
    rw [← Finset.card_range bs.length]
    apply Finset.card_le_card_of_injOn (fun i => q.getD i 0)
    · intro i hi
      exact Finset.mem_range.mpr (Finset.mem_filter.mp hi).2.2.1
    · intro i1 h1 i2 h2 he
      have hm1 := Finset.mem_coe.mp h1
      have hm2 := Finset.mem_coe.mp h2
      have hi1 : i1 < q.length := by
        rw [hqlen]
        exact Finset.mem_range.mp (Finset.mem_filter.mp hm1).1
      have hi2 : i2 < q.length := by
        rw [hqlen]
        exact Finset.mem_range.mp (Finset.mem_filter.mp hm2).1
      have e1 : q.getD i1 0 = q[i1] := by
        rw [List.getD_eq_getElem?_getD, List.getElem?_eq_getElem hi1]
        rfl
      have e2 : q.getD i2 0 = q[i2] := by
        rw [List.getD_eq_getElem?_getD, List.getElem?_eq_getElem hi2]
        rfl
      dsimp only at he
      rw [e1, e2] at he
      exact (List.Nodup.getElem_inj_iff hqnd).mp he
  have hcardN : techs.length - bs.length ≤
      ((Finset.range techs.length).filter
        (fun i => ¬ realRow techs bs q i)).card := by
    have h2 : ((Finset.range techs.length).filter (realRow techs bs q)).card +
        ((Finset.range techs.length).filter
          (fun i => ¬ realRow techs bs q i)).card =
        techs.length := by
      rw [Finset.filter_card_add_filter_neg_card_eq_card]
      exact Finset.card_range techs.length
    omega
  rw [htotq, hnewEq]
  apply add_le_add_left
  rw [nsmul_eq_mul]
  apply mul_le_mul_of_nonneg_right _ (by norm_num)
  exact_mod_cast hcardN

/-- Core optimality bound: on a group whose bookings all have truthy
coordinates and pairwise distinct assigned technicians drawn from the
technician pool, each with a truthy fully known position, the materialized
matching's total distance is at most the old total distance. -/
theorem new_le_old_core (d : ℚ → ℚ → ℚ → ℚ → ℚ) (s : State)
    (techs : List Technician) (bs : List CustomerBooking)
    (hsym : ∀ a b c e, d a b c e = d c e a b)
    (H : ∀ bk ∈ bs,
      truthyQ bk.lat = true ∧
      bk.assigned_technician.bind (findTech s) = some (assignedTech s bk) ∧
      assignedTech s bk ∈ techs ∧
      truthyQ (assignedTech s bk).current_lat = true ∧
      (assignedTech s bk).current_lat.isSome = true ∧
      (assignedTech s bk).current_lng.isSome = true)
    (hids : (bs.map (fun bk => (assignedTech s bk).id)).Nodup) :
    ((optimizedTriples d techs bs
        (linear_sum_assignment techs.length (cellCost d techs bs))
        techs.length).map (fun x => x.2.2)).sum ≤
      oldTotalDistance d s bs := by
  obtain ⟨hnd, hsubl, hble⟩ :=
    idxList_facts s techs bs (fun bk h => (H bk h).2.2.1) hids
  have hpperm := construct_perm techs.length
    (bs.map (fun bk => techs.indexOf (assignedTech s bk))) hnd hsubl
  have hpfirst : ∀ j, j < bs.length →
      (bs.map (fun bk => techs.indexOf (assignedTech s bk)) ++
        (List.range techs.length).filter
          (fun i => i ∉ bs.map (fun bk =>
            techs.indexOf (assignedTech s bk)))).getD j 0 =
      techs.indexOf (assignedTech s (bs.getD j default)) := by
    intro j hj
    rw [List.getD_append _ _ _ _ (by simpa using hj)]
    rw [List.getD_eq_getElem?_getD, List.getElem?_map,
      List.getElem?_eq_getElem hj]
    have e : bs.getD j default = bs[j] := by
      rw [List.getD_eq_getElem?_getD, List.getElem?_eq_getElem hj]
      rfl
    rw [e]
    rfl
  have hident := identity_cost_eq d s techs bs _ hsym H hble hpperm hpfirst
  have hqidperm := indexOf_map_perm techs.length _ hpperm
  have hmin := lsa_min techs.length (cellCost d techs bs) _ hqidperm
  have hchosen := chosen_cost_bound d techs bs
    (linear_sum_assignment techs.length (cellCost d techs bs))
    (lsa_perm techs.length (cellCost d techs bs))
  have hchain := le_trans hchosen (le_trans hmin (le_of_eq hident))
  exact le_of_add_le_add_right hchain

/-- C1 (amended): the Slot Group Optimizer never returns a matching whose
materialized total exceeds the old total computed from the bookings'
currently assigned technicians, provided the identity matching is feasible
and fully accounted: every booking of the group has truthy resolved
coordinates and an assigned technician with a truthy, fully known position
who holds a booked slot in the group, no two bookings sharing a technician.
(Unconditionally the claim is false: see the counterexample, where the
assigned technician holds no booked slot, and the truthiness slip of C2.) -/
theorem c1_after_le_before (d : ℚ → ℚ → ℚ → ℚ → ℚ) (s : State)
    (city slot : String) (dt : ℕ) (bs : List CustomerBooking)
    (res : OptResult) (opt : List (CustomerBooking × Technician × ℚ))
    (hsym : ∀ a b c e, d a b c e = d c e a b)
    (hf : IdentityFeasible s city slot dt bs)
    (hres : optimize_slot_group d s city slot bs dt = (some res, opt)) :
    res.new_distance ≤ res.old_distance := by
  obtain ⟨H, hids⟩ := hf
  have hcoords : bs.filter bothCoords = bs :=
    List.filter_eq_self.mpr (fun bk h => (H bk h).1)
  obtain ⟨-, -, hble⟩ := idxList_facts s (groupTechnicians s city dt slot) bs
    (fun bk h => (H bk h).2.2.2.1) hids
  unfold optimize_slot_group at hres
  rw [hcoords] at hres
  by_cases hc : bs.isEmpty || (groupTechnicians s city dt slot).isEmpty
  · rw [if_pos hc] at hres
    exact absurd (congrArg Prod.fst hres) (by simp)
  · rw [if_neg hc] at hres
    have hmax : max (groupTechnicians s city dt slot).length bs.length =
        (groupTechnicians s city dt slot).length := max_eq_left hble
    rw [hmax] at hres
    have h1 := congrArg Prod.fst hres
    dsimp only at h1
    have h2 := Option.some.inj h1
    rw [← h2]
    dsimp only
    exact new_le_old_core d s (groupTechnicians s city dt slot) bs hsym
      (fun bk h => ⟨(H bk h).2.1, (H bk h).2.2.1, (H bk h).2.2.2.1,
        (H bk h).2.2.2.2.1, (H bk h).2.2.2.2.2.1, (H bk h).2.2.2.2.2.2⟩)
      hids

/-- C1 witness: the identity-feasible scenario `c1wS`, where the optimizer
keeps the matching (old total 4, new total 4). -/
theorem c1_after_le_before_witness :
    IdentityFeasible c1wS "C" "09_11" 0 c1wS.bookings ∧
    c1wRes.new_distance ≤ c1wRes.old_distance := by
  have hf : IdentityFeasible c1wS "C" "09_11" 0 c1wS.bookings := by
    refine ⟨?_, ?_⟩
    · intro bk hbk
      norm_num [c1wS, c1wB, c1wT] at hbk
      norm_num [hbk, bothCoords, truthyQ, findTech, assignedTech,
        groupTechnicians, dedupeTechs, c1wS, c1wB, c1wT,
        List.filterMap_cons]
    · norm_num [c1wS, c1wB, c1wT, assignedTech, findTech]
  have hres : optimize_slot_group sqDist c1wS "C" "09_11" c1wS.bookings 0 =
      (some c1wRes, [(c1wB, c1wT, 4)]) := by
    norm_num [optimize_slot_group, groupTechnicians, dedupeTechs, findTech,
      bothCoords, oldTotalDistance, cellCost, linear_sum_assignment,
      pickMinPerm, totalCost, optimizedTriples, truthyQ, sqDist,
      assignedTech, List.permutations', List.permutations'Aux,
      List.range_succ, Finset.sum_range_succ, c1wS, c1wB, c1wT, c1wRes,
      List.filterMap_cons, List.getElem?_cons_zero, List.getElem?_cons_succ]
  exact ⟨hf, c1_after_le_before sqDist c1wS "C" "09_11" 0 c1wS.bookings c1wRes
    [(c1wB, c1wT, 4)] (fun a b c e => by unfold sqDist; ring) hf hres⟩

/-! ### Selection properties of the Immediate Dispatcher (C6) -/

/-- First element attaining the minimal key under `le` (first wins ties). -/
def firstMinBy (le : α → α → Bool) : List α → Option α
  | [] => none
  | x :: xs =>
    match firstMinBy le xs with
    | none => some x
    | some b => if le x b then some x else some b

theorem insertLe_length (le : α → α → Bool) (x : α) :
    ∀ l : List α, (insertLe le x l).length = l.length + 1
  | [] => rfl
  | y :: ys => by
    unfold insertLe
    split
    · rfl
    · simp [insertLe_length le x ys]

theorem sortLe_length (le : α → α → Bool) :
    ∀ l : List α, (sortLe le l).length = l.length
  | [] => rfl
  | x :: xs => by
    unfold sortLe
    rw [insertLe_length, sortLe_length le xs]
    rfl

theorem insertLe_head (le : α → α → Bool) (x : α) (l : List α) :
    (insertLe le x l).head? =
      some (match l.head? with
            | none => x
            | some y => if le x y then x else y) := by
  cases l with
  | nil => rfl
  | cons y ys =>
    unfold insertLe
    split
    · next h => simp [h]
    · next h => simp [h]

theorem firstMinBy_eq_none (le : α → α → Bool) :
    ∀ l : List α, firstMinBy le l = none → l = []
  | [], _ => rfl
  | x :: xs, h => by
    unfold firstMinBy at h
    cases hfm : firstMinBy le xs with
    | none =>
      rw [hfm] at h
      exact absurd h (by simp)
    | some b =>
      rw [hfm] at h
      dsimp only at h
      by_cases hb : le x b = true
      · rw [if_pos hb] at h
        exact absurd h (by simp)
      · rw [if_neg hb] at h
        exact absurd h (by simp)

theorem sortLe_head (le : α → α → Bool) :
    ∀ l : List α, (sortLe le l).head? = firstMinBy le l
  | [] => rfl
  | x :: xs => by
    unfold sortLe firstMinBy
    rw [insertLe_head, sortLe_head le xs]
    cases firstMinBy le xs with
    | none => rfl
    | some b =>
      by_cases h : le x b = true
      · simp [h]
      · simp [h]

theorem firstMinBy_spec (le lt : α → α → Bool)
    (hrefl : ∀ a, le a a = true)
    (htrans : ∀ a b c, le a b = true → le b c = true → le a c = true)
    (hflip : ∀ a b, ¬ le a b = true → lt b a = true ∧ le b a = true) :
    ∀ (l : List α) (c : α), firstMinBy le l = some c →
      ∃ i, ∃ hi : i < l.length, l.get ⟨i, hi⟩ = c ∧
        (∀ j (hj : j < l.length), le c (l.get ⟨j, hj⟩) = true) ∧
        (∀ j (hj : j < l.length), j < i → lt c (l.get ⟨j, hj⟩) = true)
  | [], c, h => by simp [firstMinBy] at h
  | x :: xs, c, h => by
    unfold firstMinBy at h
    cases hfm : firstMinBy le xs with
    | none =>
      rw [hfm] at h
      have hc : c = x := (Option.some.inj h).symm
      have hxs : xs = [] := firstMinBy_eq_none le xs hfm
      subst hxs
      refine ⟨0, by simp, by simp [hc], ?_, ?_⟩
      · intro j hj
        have hj0 : j = 0 := by
          simp at hj
          omega
        subst hj0
        simpa [hc] using hrefl x
      · intro j hj hj0
        omega
    | some b =>
      rw [hfm] at h
      dsimp only at h
      obtain ⟨i, hi, hget, hmin, hstrict⟩ := firstMinBy_spec le lt hrefl htrans hflip xs b hfm
      by_cases hxb : le x b = true
      · have hc : c = x := by
          rw [if_pos hxb] at h
          simpa using h.symm
        refine ⟨0, by simp, by simp [hc], ?_, ?_⟩
        · intro j hj
          cases j with
          | zero => simpa [hc] using hrefl x
          | succ j' =>
            have hj' : j' < xs.length := by simpa using hj
            have := hmin j' hj'
            rw [hc]
            have hle := htrans x b _ hxb this
            simpa using hle
        · intro j hj hj0
          omega
      · have hc : c = b := by
          rw [if_neg hxb] at h
          simpa using h.symm
        refine ⟨i + 1, by simpa using hi, by simpa [hc] using hget, ?_, ?_⟩
        · intro j hj
          cases j with
          | zero => simpa [hc] using (hflip x b hxb).2
          | succ j' =>
            have hj' : j' < xs.length := by simpa using hj
            rw [hc]
            simpa using hmin j' hj'
        · intro j hj hj0
          cases j with
          | zero => simpa [hc] using (hflip x b hxb).1
          | succ j' =>
            have hj' : j' < xs.length := by simpa using hj
            rw [hc]
            simpa using hstrict j' hj' (by omega)

theorem distLeB_refl (a : Option ℚ) : distLeB a a = true := by
  cases a with
  | none => rfl
  | some x => simp [distLeB]

theorem distLeB_trans (a b c : Option ℚ) (h1 : distLeB a b = true)
    (h2 : distLeB b c = true) : distLeB a c = true := by
  cases a <;> cases b <;> cases c <;> simp_all [distLeB] <;> linarith

theorem distLeB_flip (a b : Option ℚ) (h : ¬ distLeB a b = true) :
    distLtB b a = true ∧ distLeB b a = true := by
  cases a <;> cases b <;> simp_all [distLeB, distLtB] <;> linarith

/-- C6: dispatch selection.  When no candidate unbooked slot exists the
request answers not-found and the state is unchanged; otherwise the endpoint
succeeds with the technician of a candidate whose distance key (infinite for
positionless technicians) is minimal among all candidates and which is the
first candidate in retrieval order attaining that minimum (every earlier
candidate has a strictly greater key). -/
theorem c6_dispatch (d : ℚ → ℚ → ℚ → ℚ → ℚ) (s : State)
    (nm ph city addr pin : String) (clat clng : ℚ) (dt : ℕ) (slot : String) :
    (candidateList d s city dt slot clat clng = [] →
      create_booking d s nm ph city addr pin clat clng dt slot =
        (BookResult.notFound, s)) ∧
    (candidateList d s city dt slot clat clng ≠ [] →
      ∃ i, ∃ hi : i < (candidateList d s city dt slot clat clng).length,
        (create_booking d s nm ph city addr pin clat clng dt slot).1 =
          BookResult.success
            (((candidateList d s city dt slot clat clng).get ⟨i, hi⟩).2.1.name) ∧
        (∀ j (hj : j < (candidateList d s city dt slot clat clng).length),
          distLeB (candKey ((candidateList d s city dt slot clat clng).get ⟨i, hi⟩))
            (candKey ((candidateList d s city dt slot clat clng).get ⟨j, hj⟩)) = true) ∧
        (∀ j (hj : j < (candidateList d s city dt slot clat clng).length), j < i →
          distLtB (candKey ((candidateList d s city dt slot clat clng).get ⟨i, hi⟩))
            (candKey ((candidateList d s city dt slot clat clng).get ⟨j, hj⟩)) = true)) := by
  constructor
  · intro h
    unfold create_booking
    rw [h]
    rfl
  · intro h
    have hlen : 0 < (candidateList d s city dt slot clat clng).length :=
      List.length_pos.mpr h
    cases hs : sortLe (fun a b => distLeB (candKey a) (candKey b))
        (candidateList d s city dt slot clat clng) with
    | nil =>
      exfalso
      have := sortLe_length (fun a b => distLeB (candKey a) (candKey b))
        (candidateList d s city dt slot clat clng)
      rw [hs] at this
      simp at this
      omega
    | cons sel rest =>
      have hhead : firstMinBy (fun a b => distLeB (candKey a) (candKey b))
          (candidateList d s city dt slot clat clng) = some sel := by
        rw [← sortLe_head, hs]
        rfl
      obtain ⟨i, hi, hget, hmin, hstrict⟩ :=
        firstMinBy_spec (fun a b => distLeB (candKey a) (candKey b))
          (fun a b => distLtB (candKey a) (candKey b))
          (fun a => distLeB_refl (candKey a))
          (fun a b c h1 h2 => distLeB_trans (candKey a) (candKey b) (candKey c) h1 h2)
          (fun a b hab => distLeB_flip (candKey a) (candKey b) hab)
          (candidateList d s city dt slot clat clng) sel hhead
      refine ⟨i, hi, ?_, ?_, ?_⟩
      · unfold create_booking
        dsimp only
        rw [hs]
        dsimp only
        rw [hget]
      · intro j hj
        rw [hget]
        exact hmin j hj
      · intro j hj hij
        rw [hget]
        exact hstrict j hj hij

/-- Concrete dispatch scenario: two technicians of city `C` with unbooked
slots, the second much closer to the customer at the origin. -/
def c6wS : State :=
  { technicians :=
      [{ id := 1, name := "T1", city := "C", current_lat := some 25,
         current_lng := some 0 },
       { id := 2, name := "T2", city := "C", current_lat := some 1,
         current_lng := some 0 }],
    slots :=
      [{ technician := 1, date := 0, slot := "09_11", is_booked := false },
       { technician := 2, date := 0, slot := "09_11", is_booked := false }],
    bookings := [], runs := [], changeRows := [], nextBookingId := 1 }

/-- C6 witness: on `c6wS` the candidate list is nonempty, so the dispatcher
succeeds with a minimal-distance first-attaining candidate. -/
theorem c6_dispatch_witness :
    candidateList sqDist c6wS "C" 0 "09_11" 0 0 ≠ [] ∧
    (∃ i, ∃ hi : i < (candidateList sqDist c6wS "C" 0 "09_11" 0 0).length,
      (create_booking sqDist c6wS "N" "p" "C" "a" "z" 0 0 0 "09_11").1 =
        BookResult.success
          (((candidateList sqDist c6wS "C" 0 "09_11" 0 0).get ⟨i, hi⟩).2.1.name) ∧
      (∀ j (hj : j < (candidateList sqDist c6wS "C" 0 "09_11" 0 0).length),
        distLeB (candKey ((candidateList sqDist c6wS "C" 0 "09_11" 0 0).get ⟨i, hi⟩))
          (candKey ((candidateList sqDist c6wS "C" 0 "09_11" 0 0).get ⟨j, hj⟩)) = true) ∧
      (∀ j (hj : j < (candidateList sqDist c6wS "C" 0 "09_11" 0 0).length), j < i →
        distLtB (candKey ((candidateList sqDist c6wS "C" 0 "09_11" 0 0).get ⟨i, hi⟩))
          (candKey ((candidateList sqDist c6wS "C" 0 "09_11" 0 0).get ⟨j, hj⟩)) = true)) := by
  have h : candidateList sqDist c6wS "C" 0 "09_11" 0 0 ≠ [] := by
    simp [candidateList, availableSlotPairs, c6wS, findTech]
  exact ⟨h, (c6_dispatch sqDist c6wS "N" "p" "C" "a" "z" 0 0 0 "09_11").2 h⟩

/-! ### Change-record accounting of the preview (C8)

The preview emits one change record per materialized `(booking, tech, dist)`
triple of each slot group.  The following development characterizes the
changes list of the report and shows that each matched booking receives
exactly one record. -/

/-- The candidate triple produced for matrix row `i`: the loop body of the
`zip(row_indices, col_indices)` materialization of `_optimize_slot_group`. -/
def tripAt (d : ℚ → ℚ → ℚ → ℚ → ℚ) (techs : List Technician)
    (coords : List CustomerBooking) (assign : List ℕ) (i : ℕ) :
    Option (CustomerBooking × Technician × ℚ) :=
  let j := assign.getD i 0
  if i < techs.length then
    if j < coords.length then
      let t := techs.getD i default
      let bk := coords.getD j default
      match t.current_lat, t.current_lng with
      | some tl, some tg => some (bk, t, d tl tg (bk.lat.getD 0) (bk.lng.getD 0))
      | _, _ => none
    else none
  else none

theorem optimizedTriples_eq_filterMap (d : ℚ → ℚ → ℚ → ℚ → ℚ)
    (techs : List Technician) (coords : List CustomerBooking)
    (assign : List ℕ) (n : ℕ) :
    optimizedTriples d techs coords assign n =
      (List.range n).filterMap (tripAt d techs coords assign) := rfl

theorem tripAt_some (d : ℚ → ℚ → ℚ → ℚ → ℚ) (techs : List Technician)
    (coords : List CustomerBooking) (assign : List ℕ) (i : ℕ)
    (tr : CustomerBooking × Technician × ℚ)
    (h : tripAt d techs coords assign i = some tr) :
    i < techs.length ∧ assign.getD i 0 < coords.length ∧
    tr.1 = coords.getD (assign.getD i 0) default ∧
    tr.2.1 = techs.getD i default ∧
    tr.2.2 = d ((techs.getD i default).current_lat.getD 0)
      ((techs.getD i default).current_lng.getD 0)
      (tr.1.lat.getD 0) (tr.1.lng.getD 0) := by
  unfold tripAt at h
  dsimp only at h
  by_cases h1 : i < techs.length
  · rw [if_pos h1] at h
    by_cases h2 : assign.getD i 0 < coords.length
    · rw [if_pos h2] at h
      cases hla : (techs.getD i default).current_lat with
      | none =>
        rw [hla] at h
        exact absurd h (by simp)
      | some tl =>
        cases hlg : (techs.getD i default).current_lng with
        | none =>
          rw [hla, hlg] at h
          exact absurd h (by simp)
        | some tg =>
          rw [hla, hlg] at h
          have h3 : tr = (coords.getD (assign.getD i 0) default,
              techs.getD i default,
              d tl tg ((coords.getD (assign.getD i 0) default).lat.getD 0)
                ((coords.getD (assign.getD i 0) default).lng.getD 0)) :=
            (Option.some.inj h).symm
          refine ⟨h1, h2, by rw [h3], by rw [h3], ?_⟩
          rw [h3]
          simp [hla, hlg]
    · rw [if_neg h2] at h
      exact absurd h (by simp)
  · rw [if_neg h1] at h
    exact absurd h (by simp)

theorem tripAt_booking_mem (d : ℚ → ℚ → ℚ → ℚ → ℚ) (techs : List Technician)
    (coords : List CustomerBooking) (assign : List ℕ) (i : ℕ)
    (tr : CustomerBooking × Technician × ℚ)
    (h : tripAt d techs coords assign i = some tr) : tr.1 ∈ coords := by
  obtain ⟨-, h2, h3, -, -⟩ := tripAt_some d techs coords assign i tr h
  rw [h3, List.getD_eq_getElem coords default h2]
  exact List.get_mem coords _ h2

theorem getD_nodup_inj (l : List ℕ) (hnd : l.Nodup) (i1 i2 : ℕ)
    (h1 : i1 < l.length) (h2 : i2 < l.length)
    (h : l.getD i1 0 = l.getD i2 0) : i1 = i2 := by
  rw [List.getD_eq_getElem l 0 h1, List.getD_eq_getElem l 0 h2] at h
  have h' : l.get ⟨i1, h1⟩ = l.get ⟨i2, h2⟩ := h
  exact congrArg Fin.val (hnd.get_inj_iff.mp h')

theorem getD_id_inj (coords : List CustomerBooking)
    (hcids : (coords.map (fun b => b.id)).Nodup)
    (j1 j2 : ℕ) (hj1 : j1 < coords.length) (hj2 : j2 < coords.length)
    (h : (coords.getD j1 default).id = (coords.getD j2 default).id) :
    j1 = j2 := by
  have hj1' : j1 < (coords.map (fun b => b.id)).length := by simpa using hj1
  have hj2' : j2 < (coords.map (fun b => b.id)).length := by simpa using hj2
  have h' : (coords.map (fun b => b.id)).get ⟨j1, hj1'⟩ =
      (coords.map (fun b => b.id)).get ⟨j2, hj2'⟩ := by
    rw [List.getD_eq_getElem coords default hj1,
      List.getD_eq_getElem coords default hj2] at h
    simpa using h
  exact congrArg Fin.val (hcids.get_inj_iff.mp h')

theorem tripAt_inj (d : ℚ → ℚ → ℚ → ℚ → ℚ) (techs : List Technician)
    (coords : List CustomerBooking) (n : ℕ)
    (hcids : (coords.map (fun b => b.id)).Nodup)
    (i1 : ℕ) (h1n : i1 < n) (i2 : ℕ) (h2n : i2 < n)
    (tr1 tr2 : CustomerBooking × Technician × ℚ)
    (h1 : tripAt d techs coords
      (linear_sum_assignment n (cellCost d techs coords)) i1 = some tr1)
    (h2 : tripAt d techs coords
      (linear_sum_assignment n (cellCost d techs coords)) i2 = some tr2)
    (hid : tr1.1.id = tr2.1.id) : i1 = i2 ∧ tr1 = tr2 := by
  obtain ⟨ht1, hj1, hb1, htt1, hv1⟩ :=
    tripAt_some d techs coords _ i1 tr1 h1
  obtain ⟨ht2, hj2, hb2, htt2, hv2⟩ :=
    tripAt_some d techs coords _ i2 tr2 h2
  have hlen := lsa_length n (cellCost d techs coords)
  have hnd : (linear_sum_assignment n (cellCost d techs coords)).Nodup :=
    (lsa_perm n (cellCost d techs coords)).symm.nodup (List.nodup_range n)
  have hid' : (coords.getD
      ((linear_sum_assignment n (cellCost d techs coords)).getD i1 0)
        default).id =
      (coords.getD
        ((linear_sum_assignment n (cellCost d techs coords)).getD i2 0)
          default).id := by
    rw [← hb1, ← hb2]
    exact hid
  have hj12 := getD_id_inj coords hcids _ _ hj1 hj2 hid'
  have hi12 : i1 = i2 := getD_nodup_inj _ hnd i1 i2
    (by rw [hlen]; exact h1n) (by rw [hlen]; exact h2n) hj12
  subst hi12
  refine ⟨rfl, ?_⟩
  have e1 : tr1.1 = tr2.1 := by rw [hb1, hb2]
  have e2 : tr1.2.1 = tr2.2.1 := by rw [htt1, htt2]
  have e3 : tr1.2.2 = tr2.2.2 := by rw [hv1, hv2, e1]
  exact Prod.ext e1 (Prod.ext e2 e3)

theorem opt_snd_cases (d : ℚ → ℚ → ℚ → ℚ → ℚ) (s : State) (city k : String)
    (bs : List CustomerBooking) (dt : ℕ) :
    (optimize_slot_group d s city k bs dt).2 = [] ∨
    (optimize_slot_group d s city k bs dt).2 =
      optimizedTriples d (groupTechnicians s city dt k) (bs.filter bothCoords)
        (linear_sum_assignment
          (max (groupTechnicians s city dt k).length
            (bs.filter bothCoords).length)
          (cellCost d (groupTechnicians s city dt k) (bs.filter bothCoords)))
        (max (groupTechnicians s city dt k).length
          (bs.filter bothCoords).length) := by
  unfold optimize_slot_group
  dsimp only
  split_ifs with h1 h2
  · exact Or.inl rfl
  · exact Or.inr rfl
  · exact Or.inr rfl

theorem groupCoords_sublist (s : State) (city : String) (dt : ℕ) (k : String) :
    List.Sublist
      (((previewBookings s city dt).filter (fun b => b.slot == k)).filter
        bothCoords)
      s.bookings := by
  have h1 : List.Sublist
      (((previewBookings s city dt).filter (fun b => b.slot == k)).filter
        bothCoords)
      (previewBookings s city dt) :=
    List.Sublist.trans (List.filter_sublist _) (List.filter_sublist _)
  have h2 : List.Sublist (previewBookings s city dt) s.bookings := by
    unfold previewBookings
    exact List.filter_sublist _
  exact h1.trans h2

/-- The sequence of change records contributed by slot group `k`. -/
def groupChanges (d : ℚ → ℚ → ℚ → ℚ → ℚ) (s : State) (city : String)
    (dt : ℕ) (k : String) : List ChangeRecord :=
  ((optimize_slot_group d s city k
    ((previewBookings s city dt).filter (fun b => b.slot == k)) dt).2).map
      (mkChange d s k)

theorem foldl_prevStep_changes (d : ℚ → ℚ → ℚ → ℚ → ℚ) (s : State)
    (k : String) :
    ∀ (l : List (CustomerBooking × Technician × ℚ)) (acc : PrevAcc),
      (l.foldl (prevStep d s k) acc).changes =
        acc.changes ++ l.map (mkChange d s k)
  | [], acc => by simp
  | x :: t, acc => by
    rw [List.foldl_cons,
      foldl_prevStep_changes d s k t (prevStep d s k acc x), List.map_cons]
    dsimp only [prevStep]
    simp

theorem processGroup_changes (d : ℚ → ℚ → ℚ → ℚ → ℚ) (s : State)
    (city : String) (dt : ℕ) (acc : PrevAcc) (k : String) :
    (processGroup d s city dt acc k).changes =
      acc.changes ++ groupChanges d s city dt k := by
  unfold processGroup groupChanges
  dsimp only
  rw [foldl_prevStep_changes]

theorem foldl_processGroup_changes (d : ℚ → ℚ → ℚ → ℚ → ℚ) (s : State)
    (city : String) (dt : ℕ) :
    ∀ (keys : List String) (acc : PrevAcc),
      ((keys.foldl (processGroup d s city dt) acc).changes =
        acc.changes ++ (keys.map (groupChanges d s city dt)).flatten)
  | [], acc => by simp
  | k :: t, acc => by
    rw [List.foldl_cons,
      foldl_processGroup_changes d s city dt t (processGroup d s city dt acc k),
      processGroup_changes, List.map_cons, List.flatten_cons]
    simp

theorem preview_changes_eq (d : ℚ → ℚ → ℚ → ℚ → ℚ) (s : State)
    (city : String) (dt : ℕ) :
    (preview_optimization d s city dt).changes =
      ((sortedSlotKeys s city dt).map (groupChanges d s city dt)).flatten := by
  unfold preview_optimization
  dsimp only
  rw [foldl_processGroup_changes]
  rfl

theorem insertLe_perm (le : α → α → Bool) (x : α) :
    ∀ l : List α, List.Perm (insertLe le x l) (x :: l)
  | [] => List.Perm.refl _
  | y :: ys => by
    unfold insertLe
    by_cases h : le x y
    · rw [if_pos h]
      try exact List.Perm.refl _
    · rw [if_neg h]
      exact ((insertLe_perm le x ys).cons y).trans (List.Perm.swap x y ys)

theorem sortLe_perm (le : α → α → Bool) :
    ∀ l : List α, List.Perm (sortLe le l) l
  | [] => List.Perm.refl _
  | x :: xs => by
    unfold sortLe
    exact (insertLe_perm le x (sortLe le xs)).trans ((sortLe_perm le xs).cons x)

theorem dedupeStr_sub_seen :
    ∀ (l seen : List String) (x : String), x ∈ dedupeStr seen l → x ∉ seen
  | [], seen, x => by
    intro h
    exact absurd h (List.not_mem_nil x)
  | k :: rest, seen, x => by
    intro h hseen
    unfold dedupeStr at h
    by_cases hk : k ∈ seen
    · rw [if_pos hk] at h
      exact dedupeStr_sub_seen rest seen x h hseen
    · rw [if_neg hk] at h
      rcases List.mem_cons.mp h with rfl | h2
      · exact hk hseen
      · exact dedupeStr_sub_seen rest (k :: seen) x h2
          (List.mem_cons_of_mem k hseen)

theorem dedupeStr_nodup : ∀ (l seen : List String), (dedupeStr seen l).Nodup
  | [], seen => List.nodup_nil
  | k :: rest, seen => by
    unfold dedupeStr
    by_cases hk : k ∈ seen
    · rw [if_pos hk]
      exact dedupeStr_nodup rest seen
    · rw [if_neg hk]
      refine List.nodup_cons.mpr ⟨?_, dedupeStr_nodup rest (k :: seen)⟩
      intro hmem
      exact dedupeStr_sub_seen rest (k :: seen) k hmem
        (List.mem_cons_self k seen)

theorem sortedSlotKeys_nodup (s : State) (city : String) (dt : ℕ) :
    (sortedSlotKeys s city dt).Nodup := by
  unfold sortedSlotKeys
  exact (sortLe_perm _ _).symm.nodup (dedupeStr_nodup _ _)

theorem filterMap_filter_singleton {ι α : Type _} (p : α → Bool) (x : α) :
    ∀ (l : List ι) (f : ι → Option α), l.Nodup →
      (∃ i ∈ l, f i = some x) → p x = true →
      (∀ i ∈ l, ∀ y, f i = some y → p y = true → y = x) →
      (∀ i1 ∈ l, ∀ i2 ∈ l, ∀ y1 y2, f i1 = some y1 → f i2 = some y2 →
        p y1 = true → p y2 = true → i1 = i2) →
      (l.filterMap f).filter p = [x]
  | [], f, _, hex, _, _, _ => by
    obtain ⟨i, hi, -⟩ := hex
    exact absurd hi (List.not_mem_nil i)
  | a :: t, f, hnd, hex, hpx, hall, huniq => by
    obtain ⟨hna, hndt⟩ := List.nodup_cons.mp hnd
    rw [List.filterMap_cons]
    cases hfa : f a with
    | none =>
      have hex' : ∃ i ∈ t, f i = some x := by
        obtain ⟨i, hi, hfi⟩ := hex
        rcases List.mem_cons.mp hi with rfl | hit
        · rw [hfa] at hfi
          exact absurd hfi (by simp)
        · exact ⟨i, hit, hfi⟩
      exact filterMap_filter_singleton p x t f hndt hex' hpx
        (fun i hi y e hp => hall i (List.mem_cons_of_mem a hi) y e hp)
        (fun i1 hh1 i2 hh2 y1 y2 e1 e2 p1 p2 =>
          huniq i1 (List.mem_cons_of_mem a hh1) i2 (List.mem_cons_of_mem a hh2)
            y1 y2 e1 e2 p1 p2)
    | some y =>
      show ((y :: t.filterMap f).filter p = [x])
      cases hpy : p y with
      | false =>
        rw [List.filter_cons, if_neg (by simp [hpy])]
        have hex' : ∃ i ∈ t, f i = some x := by
          obtain ⟨i, hi, hfi⟩ := hex
          rcases List.mem_cons.mp hi with rfl | hit
          · rw [hfa] at hfi
            have hyx : y = x := Option.some.inj hfi
            rw [hyx, hpx] at hpy
            exact absurd hpy (by simp)
          · exact ⟨i, hit, hfi⟩
        exact filterMap_filter_singleton p x t f hndt hex' hpx
          (fun i hi y2 e hp => hall i (List.mem_cons_of_mem a hi) y2 e hp)
          (fun i1 hh1 i2 hh2 y1 y2 e1 e2 p1 p2 =>
            huniq i1 (List.mem_cons_of_mem a hh1) i2
              (List.mem_cons_of_mem a hh2) y1 y2 e1 e2 p1 p2)
      | true =>
        have hyx : y = x := hall a (List.mem_cons_self a t) y hfa hpy
        subst hyx
        rw [List.filter_cons, if_pos (by simp [hpy])]
        have hnil : (t.filterMap f).filter p = [] := by
          rw [List.filter_eq_nil_iff]
          intro b hb hpb
          obtain ⟨i, hit, hfi⟩ := List.mem_filterMap.mp hb
          have hai : a = i := huniq a (List.mem_cons_self a t) i
            (List.mem_cons_of_mem a hit) y b hfa hfi hpy hpb
          rw [hai] at hna
          exact hna hit
        rw [hnil]

theorem triples_filter_singleton (d : ℚ → ℚ → ℚ → ℚ → ℚ) (s : State)
    (k : String) (techs : List Technician) (coords : List CustomerBooking)
    (n : ℕ) (hcids : (coords.map (fun b => b.id)).Nodup)
    (bk : CustomerBooking) (t : Technician) (dist : ℚ)
    (hmem : (bk, t, dist) ∈ (List.range n).filterMap
      (tripAt d techs coords
        (linear_sum_assignment n (cellCost d techs coords)))) :
    (((List.range n).filterMap
        (tripAt d techs coords
          (linear_sum_assignment n (cellCost d techs coords)))).map
      (mkChange d s k)).filter (fun c => c.booking_id == bk.id) =
      [mkChange d s k (bk, t, dist)] := by
  obtain ⟨i0, hi0, hf0⟩ := List.mem_filterMap.mp hmem
  rw [List.map_filterMap]
  refine filterMap_filter_singleton _ _ _ _ (List.nodup_range n)
    ⟨i0, hi0, by rw [hf0]; rfl⟩ (by simp [mkChange]) ?_ ?_
  · intro i hi y hy hpy
    cases htr : tripAt d techs coords
        (linear_sum_assignment n (cellCost d techs coords)) i with
    | none =>
      rw [htr] at hy
      exact absurd hy (by simp)
    | some tr =>
      rw [htr] at hy
      have hyeq : y = mkChange d s k tr := by simpa using hy.symm
      subst hyeq
      have hid2 : tr.1.id = bk.id := by simpa [mkChange] using hpy
      have hinj := tripAt_inj d techs coords n hcids i (List.mem_range.mp hi)
        i0 (List.mem_range.mp hi0) tr (bk, t, dist) htr hf0 hid2
      rw [hinj.2]
  · intro i1 hh1 i2 hh2 y1 y2 e1 e2 p1 p2
    cases htr1 : tripAt d techs coords
        (linear_sum_assignment n (cellCost d techs coords)) i1 with
    | none =>
      rw [htr1] at e1
      exact absurd e1 (by simp)
    | some tr1 =>
      cases htr2 : tripAt d techs coords
          (linear_sum_assignment n (cellCost d techs coords)) i2 with
      | none =>
        rw [htr2] at e2
        exact absurd e2 (by simp)
      | some tr2 =>
        rw [htr1] at e1
        rw [htr2] at e2
        have hy1 : y1 = mkChange d s k tr1 := by simpa using e1.symm
        have hy2 : y2 = mkChange d s k tr2 := by simpa using e2.symm
        subst hy1
        subst hy2
        have hid1 : tr1.1.id = bk.id := by simpa [mkChange] using p1
        have hid2 : tr2.1.id = bk.id := by simpa [mkChange] using p2
        exact (tripAt_inj d techs coords n hcids i1 (List.mem_range.mp hh1)
          i2 (List.mem_range.mp hh2) tr1 tr2 htr1 htr2
          (hid1.trans hid2.symm)).1

theorem group_filter_singleton (d : ℚ → ℚ → ℚ → ℚ → ℚ) (s : State)
    (city : String) (dt : ℕ) (k : String)
    (hids : (s.bookings.map (fun b => b.id)).Nodup)
    (bk : CustomerBooking) (t : Technician) (dist : ℚ)
    (hmem : (bk, t, dist) ∈ (optimize_slot_group d s city k
      ((previewBookings s city dt).filter (fun b => b.slot == k)) dt).2) :
    (groupChanges d s city dt k).filter (fun c => c.booking_id == bk.id) =
      [mkChange d s k (bk, t, dist)] := by
  rcases opt_snd_cases d s city k
      ((previewBookings s city dt).filter (fun b => b.slot == k)) dt with
    hnil | heq
  · rw [hnil] at hmem
    exact absurd hmem (List.not_mem_nil _)
  · have hcids : ((((previewBookings s city dt).filter
        (fun b => b.slot == k)).filter bothCoords).map
          (fun b => b.id)).Nodup :=
      hids.sublist ((groupCoords_sublist s city dt k).map (fun b => b.id))
    unfold groupChanges
    rw [heq, optimizedTriples_eq_filterMap] at hmem ⊢
    exact triples_filter_singleton d s k _ _ _ hcids bk t dist hmem

theorem group_changes_other (d : ℚ → ℚ → ℚ → ℚ → ℚ) (s : State)
    (city : String) (dt : ℕ) (k kk : String) (hne : kk ≠ k)
    (hids : (s.bookings.map (fun b => b.id)).Nodup)
    (bk : CustomerBooking)
    (hbk : bk ∈ ((previewBookings s city dt).filter
      (fun b => b.slot == k)).filter bothCoords)
    (c : ChangeRecord) (hc : c ∈ groupChanges d s city dt kk) :
    ¬ (c.booking_id == bk.id) = true := by
  intro hpc
  unfold groupChanges at hc
  obtain ⟨tr, htr, hmk⟩ := List.mem_map.mp hc
  rcases opt_snd_cases d s city kk
      ((previewBookings s city dt).filter (fun b => b.slot == kk)) dt with
    hnil | heq
  · rw [hnil] at htr
    exact absurd htr (List.not_mem_nil _)
  · rw [heq, optimizedTriples_eq_filterMap] at htr
    obtain ⟨i, hi, hf⟩ := List.mem_filterMap.mp htr
    have hmemc : tr.1 ∈ ((previewBookings s city dt).filter
        (fun b => b.slot == kk)).filter bothCoords :=
      tripAt_booking_mem d _ _ _ i tr hf
    have hid2 : tr.1.id = bk.id := by
      rw [← hmk] at hpc
      simpa [mkChange] using hpc
    have h1 : tr.1 ∈ s.bookings := (groupCoords_sublist s city dt kk).subset hmemc
    have h2 : bk ∈ s.bookings := (groupCoords_sublist s city dt k).subset hbk
    have heqb : tr.1 = bk := List.inj_on_of_nodup_map hids h1 h2 hid2
    have hs1 : (tr.1.slot == kk) = true :=
      (List.mem_filter.mp (List.mem_filter.mp hmemc).1).2
    have hs2 : (bk.slot == k) = true :=
      (List.mem_filter.mp (List.mem_filter.mp hbk).1).2
    rw [heqb] at hs1
    exact hne ((eq_of_beq hs1).symm.trans (eq_of_beq hs2))

/-- C8 (amended): every booking matched to a real technician row of its slot
group (a member of the group's optimized triples) receives exactly one change
record in the preview, carrying the old and new technician, the old and new
point distance, the signed delta, and a changed flag that is true iff the
optimal technician differs from the current one by identifier.  The original
claim is refuted by the counterexample: a booking matched to a padding row
(more bookings than technicians in the group) receives no record. -/
theorem c8_change_records (d : ℚ → ℚ → ℚ → ℚ → ℚ) (s : State)
    (city : String) (dt : ℕ)
    (hids : (s.bookings.map (fun b => b.id)).Nodup)
    (k : String) (hk : k ∈ sortedSlotKeys s city dt)
    (bk : CustomerBooking) (t : Technician) (dist : ℚ)
    (hmem : (bk, t, dist) ∈ (optimize_slot_group d s city k
      ((previewBookings s city dt).filter (fun b => b.slot == k)) dt).2) :
    (preview_optimization d s city dt).changes.filter
        (fun c => c.booking_id == bk.id) =
      [mkChange d s k (bk, t, dist)] ∧
    ((mkChange d s k (bk, t, dist)).changed = true ↔
      bk.assigned_technician ≠ some t.id) ∧
    (mkChange d s k (bk, t, dist)).new_technician = t.name ∧
    (mkChange d s k (bk, t, dist)).new_km = dist ∧
    (mkChange d s k (bk, t, dist)).old_technician =
      (bk.assigned_technician.bind (findTech s)).map (fun ot => ot.name) ∧
    (mkChange d s k (bk, t, dist)).delta_km =
      (mkChange d s k (bk, t, dist)).old_km -
        (mkChange d s k (bk, t, dist)).new_km ∧
    (mkChange d s k (bk, t, dist)).booking_id = bk.id := by
  have hbkmem : bk ∈ ((previewBookings s city dt).filter
      (fun b => b.slot == k)).filter bothCoords := by
    rcases opt_snd_cases d s city k
        ((previewBookings s city dt).filter (fun b => b.slot == k)) dt with
      hnil | heq
    · rw [hnil] at hmem
      exact absurd hmem (List.not_mem_nil _)
    · rw [heq, optimizedTriples_eq_filterMap] at hmem
      obtain ⟨i, hi, hf⟩ := List.mem_filterMap.mp hmem
      exact tripAt_booking_mem d _ _ _ i (bk, t, dist) hf
  refine ⟨?_, by simp [mkChange], rfl, rfl, rfl, rfl, rfl⟩
  rw [preview_changes_eq]
  obtain ⟨l1, l2, hkeys⟩ := List.append_of_mem hk
  have hnd := sortedSlotKeys_nodup s city dt
  rw [hkeys] at hnd
  obtain ⟨hnd1, hnd2, hdisj⟩ := List.nodup_append.mp hnd
  have hkl1 : k ∉ l1 := fun hkl => hdisj hkl (List.mem_cons_self k l2)
  have hkl2 : k ∉ l2 := (List.nodup_cons.mp hnd2).1
  rw [hkeys, List.map_append, List.map_cons, List.flatten_append,
    List.flatten_cons, List.filter_append, List.filter_append]
  have hA : ((l1.map (groupChanges d s city dt)).flatten).filter
      (fun c => c.booking_id == bk.id) = [] := by
    rw [List.filter_eq_nil_iff]
    intro c hcmem
    obtain ⟨gl, hgl, hcg⟩ := List.mem_flatten.mp hcmem
    obtain ⟨kk, hkk, hglk⟩ := List.mem_map.mp hgl
    rw [← hglk] at hcg
    exact group_changes_other d s city dt k kk
      (fun heqk => hkl1 (heqk ▸ hkk)) hids bk hbkmem c hcg
  have hC : ((l2.map (groupChanges d s city dt)).flatten).filter
      (fun c => c.booking_id == bk.id) = [] := by
    rw [List.filter_eq_nil_iff]
    intro c hcmem
    obtain ⟨gl, hgl, hcg⟩ := List.mem_flatten.mp hcmem
    obtain ⟨kk, hkk, hglk⟩ := List.mem_map.mp hgl
    rw [← hglk] at hcg
    exact group_changes_other d s city dt k kk
      (fun heqk => hkl2 (heqk ▸ hkk)) hids bk hbkmem c hcg
  have hB : (groupChanges d s city dt k).filter
      (fun c => c.booking_id == bk.id) = [mkChange d s k (bk, t, dist)] :=
    group_filter_singleton d s city dt k hids bk t dist hmem
  rw [hA, hB, hC]
  simp

/-- A single technician assigned to a single geocoded booking, for the C8
witness scenario. -/
def c8wT : Technician :=
  { id := 1, name := "T", city := "C", current_lat := some 5,
    current_lng := some 0 }

/-- The booking of the C8 witness scenario. -/
def c8wB : CustomerBooking :=
  { id := 1, name := "B", phone := "p", city := "C", address := "a",
    pincode := "000001", lat := some 3, lng := some 0, date := 0,
    slot := "09_11", assigned_technician := some 1, status := "assigned" }

/-- The C8 witness state. -/
def c8wS : State :=
  { technicians := [c8wT],
    slots := [{ technician := 1, date := 0, slot := "09_11",
                is_booked := true }],
    bookings := [c8wB],
    runs := [], changeRows := [], nextBookingId := 2 }

/-- C8 witness: on `c8wS` the matched booking receives exactly one change
record. -/
theorem c8_change_records_witness :
    (c8wS.bookings.map (fun b => b.id)).Nodup ∧
    "09_11" ∈ sortedSlotKeys c8wS "C" 0 ∧
    (c8wB, c8wT, (4 : ℚ)) ∈ (optimize_slot_group sqDist c8wS "C" "09_11"
      ((previewBookings c8wS "C" 0).filter (fun b => b.slot == "09_11"))
      0).2 ∧
    (preview_optimization sqDist c8wS "C" 0).changes.filter
      (fun c => c.booking_id == c8wB.id) =
      [mkChange sqDist c8wS "09_11" (c8wB, c8wT, 4)] := by
  have hids : (c8wS.bookings.map (fun b => b.id)).Nodup := by
    norm_num [c8wS, c8wB]
  have hk : "09_11" ∈ sortedSlotKeys c8wS "C" 0 := by
    norm_num [sortedSlotKeys, previewBookings, dedupeStr, sortLe, insertLe,
      c8wS, c8wB]
  have hmem : (c8wB, c8wT, (4 : ℚ)) ∈ (optimize_slot_group sqDist c8wS "C"
      "09_11" ((previewBookings c8wS "C" 0).filter
        (fun b => b.slot == "09_11")) 0).2 := by
    norm_num [optimize_slot_group, previewBookings, groupTechnicians,
      dedupeTechs, findTech, bothCoords, oldTotalDistance, cellCost,
      linear_sum_assignment, pickMinPerm, totalCost, optimizedTriples,
      truthyQ, sqDist, List.permutations', List.permutations'Aux,
      List.range_succ, Finset.sum_range_succ, c8wS, c8wB, c8wT,
      List.filterMap_cons, List.getElem?_cons_zero,
      List.getElem?_cons_succ]
  exact ⟨hids, hk, hmem,
    (c8_change_records sqDist c8wS "C" 0 hids "09_11" hk c8wB c8wT 4 hmem).1⟩


end Cycleworks
